import Mathlib

/-!
Verification of the log-line extraction engine of the Log Analyzer Pro
repository (src/App.tsx) against its natural-language specification.

The TypeScript source is shallowly embedded: each parser function of
src/App.tsx is translated into an executable Lean definition over
`String`/`List Char`, JavaScript regular expressions are translated into
deterministic scanning functions (each regex used by the source is simple
enough that its backtracking behaviour is determined; the translation of
each one is documented at its definition), and JavaScript numbers produced
by `timeToSeconds` are modelled exactly by rational numbers (all values
involved are integer multiples of 1/1000, for which float64 arithmetic and
exact rational arithmetic induce identical comparisons).

Because the rational operations of the standard library are `irreducible`
(so closed rational arithmetic cannot be evaluated by `decide`), the
executable parser definitions compare timestamps through the integer
millisecond count `timeToMillis`; the lemmas `timeToSeconds_eq_millis`,
`tts_lt_iff`, `tts_le_iff` and `timeDiff_gt_iff` prove that these integer
comparisons are exactly the comparisons the source performs on
`timeToSeconds` values.
-/

namespace LogAnalyzer

/-! ## Character classes of JavaScript regular expressions -/

/-- Membership of the JavaScript regex class `\s` (ECMAScript WhiteSpace
plus LineTerminator, as matched by `\s`). -/
def jsSpace (c : Char) : Bool :=
  let n := c.toNat
  n = 9 || n = 10 || n = 11 || n = 12 || n = 13 || n = 32 || n = 0xA0 ||
  n = 0x1680 || (0x2000 ≤ n && n ≤ 0x200A) || n = 0x2028 || n = 0x2029 ||
  n = 0x202F || n = 0x205F || n = 0x3000 || n = 0xFEFF

/-- Membership of the ECMAScript LineTerminator set, the characters that
the regex metacharacter `.` does not match. -/
def lineTerm (c : Char) : Bool :=
  let n := c.toNat
  n = 10 || n = 13 || n = 0x2028 || n = 0x2029

/-- Membership of the JavaScript regex class `\w`, used by the word
boundary assertion `\b`. -/
def wordChar (c : Char) : Bool :=
  (('A' ≤ c) && (c ≤ 'Z')) || (('a' ≤ c) && (c ≤ 'z')) || c.isDigit || c == '_'

/-- Model of JavaScript `String.prototype.trim`, which strips WhiteSpace
and LineTerminator characters from both ends. -/
def jsTrim (s : String) : String :=
  ⟨((s.data.dropWhile jsSpace).reverse.dropWhile jsSpace).reverse⟩

/-! ## Scanning combinators for the source's regular expressions

A JavaScript `String.match(re)` with an unanchored regex attempts the
pattern at every start position from the left and returns the first
success.  `scan1 attempt` models this: it tries `attempt` on every suffix,
leftmost first (including the empty suffix, as JavaScript does). -/

/-- Leftmost-match driver: try `attempt` at each start position of the
subject, leftmost first, as a JavaScript unanchored regex search does. -/
def scan1 (attempt : List Char → Option α) : List Char → Option α
  | [] => attempt []
  | c :: cs =>
    match attempt (c :: cs) with
    | some r => some r
    | none => scan1 attempt cs

/-- Match a literal character sequence (case-sensitively), returning the
remainder of the subject. -/
def stripL : List Char → List Char → Option (List Char)
  | [], s => some s
  | _ :: _, [] => none
  | p :: ps, c :: cs => if c = p then stripL ps cs else none

/-- Match a literal character sequence case-insensitively (for regexes
carrying the `i` flag), returning the remainder of the subject. -/
def stripCI : List Char → List Char → Option (List Char)
  | [], s => some s
  | _ :: _, [] => none
  | p :: ps, c :: cs => if c.toLower = p.toLower then stripCI ps cs else none

/-- Match a one-or-more greedy run of characters satisfying `p` (a regex
piece like `[^,]+`, `\d+` or `\S+` that is immediately followed either by
nothing or by a literal that no `p`-character can begin, so that greedy
matching is deterministic), returning the run and the remainder. -/
def run1 (p : Char → Bool) (s : List Char) : Option (List Char × List Char) :=
  match s.takeWhile p with
  | [] => none
  | r => some (r, s.dropWhile p)

/-- Capture of a `\s*(.+)` regex tail (as in `CPU:\s*(.+)`):  the greedy
`\s*` takes the maximal whitespace run and `(.+)` then takes the maximal
nonempty run of non-LineTerminator characters; if only whitespace remains,
backtracking hands the last non-terminator whitespace character to `(.+)`. -/
def dotPlusAfterWS (t : List Char) : Option (List Char) :=
  match t.dropWhile jsSpace with
  | c :: cs => some ((c :: cs).takeWhile (fun x => !lineTerm x))
  | [] => ((t.takeWhile jsSpace).reverse.find? (fun x => !lineTerm x)).map ([·])

/-- Capture of a `\s*(.*)` regex tail (as in `Features:\s*(.*)`): greedy
`\s*` then a possibly-empty run of non-LineTerminator characters; this
always succeeds. -/
def dotStarAfterWS (t : List Char) : List Char :=
  (t.dropWhile jsSpace).takeWhile (fun x => !lineTerm x)

/-! ## Timestamps (`LOG_TIMESTAMP_REGEX` and `timeToSeconds`) -/

/-- Numeric value of a digit character. -/
def dv (c : Char) : ℕ := c.toNat - 48

/-- Match the fixed-shape regex piece `\d{2}:\d{2}:\d{2}\.\d{3}`,
returning the twelve matched characters and the remainder. -/
def takeTS : List Char → Option (List Char × List Char)
  | h1 :: h2 :: c1 :: m1 :: m2 :: c2 :: s1 :: s2 :: p :: x1 :: x2 :: x3 :: rest =>
    if h1.isDigit && h2.isDigit && (c1 == ':') && m1.isDigit && m2.isDigit &&
       (c2 == ':') && s1.isDigit && s2.isDigit && (p == '.') &&
       x1.isDigit && x2.isDigit && x3.isDigit then
      some ([h1, h2, c1, m1, m2, c2, s1, s2, p, x1, x2, x3], rest)
    else none
  | _ => none

/-- Translation of `extractTimestampFromLogLine` (src/App.tsx line 29):
the anchored regex `^\S+\s+\d+\s+(\d{2}:\d{2}:\d{2}\.\d{3})` is attempted
once at the start of the line.  Each greedy piece is followed by a piece no
character of its class can begin, so matching is deterministic. -/
def extractTimestampFromLogLine (line : String) : Option String := do
  let (_, r1) ← run1 (fun c => !jsSpace c) line.data
  let (_, r2) ← run1 jsSpace r1
  let (_, r3) ← run1 Char.isDigit r2
  let (_, r4) ← run1 jsSpace r3
  let (ts, _) ← takeTS r4
  some ⟨ts⟩

/-- Translation of `timeToSeconds` (src/App.tsx line 34).  The guard regex
`^\d{2}:\d{2}:\d{2}\.\d{3}$` (which also rejects the empty string) is the
shape test of the match; on success the split on `[:.]` yields the four
digit groups, whose `parseInt` values are combined by
`hours*3600 + minutes*60 + seconds + millis/1000`. -/
def timeToSeconds (timeStr : String) : ℚ :=
  match timeStr.data with
  | [h1, h2, c1, m1, m2, c2, s1, s2, p, x1, x2, x3] =>
    if h1.isDigit && h2.isDigit && (c1 == ':') && m1.isDigit && m2.isDigit &&
       (c2 == ':') && s1.isDigit && s2.isDigit && (p == '.') &&
       x1.isDigit && x2.isDigit && x3.isDigit then
      ((dv h1 * 10 + dv h2 : ℕ) : ℚ) * 3600 + ((dv m1 * 10 + dv m2 : ℕ) : ℚ) * 60 +
        ((dv s1 * 10 + dv s2 : ℕ) : ℚ) + ((dv x1 * 100 + dv x2 * 10 + dv x3 : ℕ) : ℚ) / 1000
    else 0
  | _ => 0

/-- Integer-millisecond companion of `timeToSeconds`: the same parse, with
the value scaled by 1000 so that it stays in `ℕ`.  The executable parser
models compare timestamps through this function; the lemmas
`timeToSeconds_eq_millis`, `tts_lt_iff`, `tts_le_iff` and `timeDiff_gt_iff`
prove that this is exactly equivalent to the source's comparisons of
`timeToSeconds` values. -/
def timeToMillis (timeStr : String) : ℕ :=
  match timeStr.data with
  | [h1, h2, c1, m1, m2, c2, s1, s2, p, x1, x2, x3] =>
    if h1.isDigit && h2.isDigit && (c1 == ':') && m1.isDigit && m2.isDigit &&
       (c2 == ':') && s1.isDigit && s2.isDigit && (p == '.') &&
       x1.isDigit && x2.isDigit && x3.isDigit then
      (dv h1 * 10 + dv h2) * 3600000 + (dv m1 * 10 + dv m2) * 60000 +
        (dv s1 * 10 + dv s2) * 1000 + (dv x1 * 100 + dv x2 * 10 + dv x3)
    else 0
  | _ => 0

theorem timeToSeconds_eq_millis (s : String) :
    timeToSeconds s = (timeToMillis s : ℚ) / 1000 := by
  unfold timeToSeconds timeToMillis
  split
  · split
    · push_cast
      ring
    · norm_num
  · norm_num

theorem tts_lt_iff (a b : String) :
    timeToSeconds a < timeToSeconds b ↔ timeToMillis a < timeToMillis b := by
  rw [timeToSeconds_eq_millis, timeToSeconds_eq_millis,
    div_lt_div_iff_of_pos_right (by norm_num : (0:ℚ) < 1000)]
  exact_mod_cast Iff.rfl

theorem tts_le_iff (a b : String) :
    timeToSeconds a ≤ timeToSeconds b ↔ timeToMillis a ≤ timeToMillis b := by
  rw [timeToSeconds_eq_millis, timeToSeconds_eq_millis,
    div_le_div_iff_of_pos_right (by norm_num : (0:ℚ) < 1000)]
  exact_mod_cast Iff.rfl

/-- Equivalence used by the Permission Snapshot Builder's proximity test:
the source computes `Math.abs(timeToSeconds a - timeToSeconds b) * 1000 >
2000`, which holds exactly when the integer millisecond difference exceeds
2000. -/
theorem timeDiff_gt_iff (a b : String) :
    |timeToSeconds a - timeToSeconds b| * 1000 > 2000 ↔
      (2000 : ℤ) < |(timeToMillis a : ℤ) - (timeToMillis b : ℤ)| := by
  rw [timeToSeconds_eq_millis, timeToSeconds_eq_millis, div_sub_div_same, abs_div]
  rw [show |(1000 : ℚ)| = 1000 by norm_num, div_mul_cancel₀ _ (by norm_num : (1000:ℚ) ≠ 0)]
  constructor
  · intro h
    exact_mod_cast h
  · intro h
    exact_mod_cast h

/-! ## Line records

The application maps every raw line to a record
`{ line, timestamp: extractTimestampFromLogLine(line), originalIndex }`
(src/App.tsx lines 558-562) and feeds the record array to the correlators.
The index is modelled as `ℤ` (a JavaScript number). -/

structure LineRec where
  line : String
  timestamp : Option String
  originalIndex : ℤ
deriving DecidableEq, Repr

/-- Construction of the record array from the raw lines, as the
application does after splitting the file text. -/
def mkLineRecords (lines : List String) : List LineRec :=
  lines.enum.map (fun p => ⟨p.2, extractTimestampFromLogLine p.2, (p.1 : ℤ)⟩)

/-! ## Permission Snapshot Builder (`parsePermissions`, src/App.tsx 263-344) -/

/-- Capture group of `/Features:\s*(.*)/`: at the leftmost occurrence of
the literal `Features:`, greedy `\s*` then the possibly-empty `(.*)`. -/
def matchFeatures (s : String) : Option String :=
  scan1 (fun t => (stripL "Features:".data t).map (fun r => (⟨dotStarAfterWS r⟩ : String))) s.data

/-- Capture group of `/XSAuth:\s*(.*)/`. -/
def matchXSAuth (s : String) : Option String :=
  scan1 (fun t => (stripL "XSAuth:".data t).map (fun r => (⟨dotStarAfterWS r⟩ : String))) s.data

/-- Capture group of `/XSPreset:\s*(.*)/`. -/
def matchXSPreset (s : String) : Option String :=
  scan1 (fun t => (stripL "XSPreset:".data t).map (fun r => (⟨dotStarAfterWS r⟩ : String))) s.data

/-- Translation of the TypeScript `PermissionSet` (all three fields
optional, as in `Partial<PermissionSet>`). -/
structure PermissionSet where
  features : Option String
  xsAuth : Option String
  xsPreset : Option String
deriving DecidableEq, Repr

structure PermissionSnapshot where
  timestamp : String
  permissions : PermissionSet
deriving DecidableEq, Repr

/-- In-progress group of `parsePermissions` (`currentSnapshotInternal`). -/
structure PermGroup where
  timestamp : String
  perms : PermissionSet
  featureOriginalIndex : ℤ
deriving DecidableEq, Repr

/-- Completeness test of `finalizeAndPushSnapshot`: each of the three
fields must be present and truthy, and truthy after `trim()`. -/
def permComplete (p : PermissionSet) : Bool :=
  match p.features, p.xsAuth, p.xsPreset with
  | some f, some a, some pr =>
    decide (f ≠ "" ∧ jsTrim f ≠ "" ∧ a ≠ "" ∧ jsTrim a ≠ "" ∧ pr ≠ "" ∧ jsTrim pr ≠ "")
  | _, _, _ => false

/-- Translation of `finalizeAndPushSnapshot` (src/App.tsx 280-293): a
retained snapshot requires all three fields non-empty after trimming;
otherwise the in-progress group is discarded.  Either way the group is
cleared. -/
def finalizePerm (st : List PermissionSnapshot × Option PermGroup) :
    List PermissionSnapshot × Option PermGroup :=
  match st.2 with
  | none => st
  | some g =>
    if permComplete g.perms then (st.1 ++ [⟨g.timestamp, g.perms⟩], none)
    else (st.1, none)

/-- Loop body of `parsePermissions` for one line record.  Lines without a
timestamp are skipped.  A `Features:` match always finalizes the current
group first and opens a new one only when the trimmed value is non-empty.
Otherwise, with a group in progress, the proximity window is
`lineDiff < 10 ∧ timeDiffMs ≤ 2000` (the source finalizes when
`lineDiff >= 10 || timeDiffMs > 2000`); the time test is expressed on
integer milliseconds, equivalent to the source's
`Math.abs(timeToSeconds a - timeToSeconds b) * 1000 > 2000` by
`timeDiff_gt_iff`.  Inside the window `XSAuth:` and then `XSPreset:` are
captured first-occurrence-only. -/
def permStep (st : List PermissionSnapshot × Option PermGroup) (item : LineRec) :
    List PermissionSnapshot × Option PermGroup :=
  match item.timestamp with
  | none => st
  | some ts =>
    match matchFeatures item.line with
    | some g1 =>
      if jsTrim g1 ≠ "" then
        ((finalizePerm st).1, some ⟨ts, ⟨some (jsTrim g1), none, none⟩, item.originalIndex⟩)
      else finalizePerm st
    | none =>
      match st.2 with
      | none => st
      | some cur =>
        if (10 : ℤ) ≤ item.originalIndex - cur.featureOriginalIndex ∨
           (2000 : ℤ) < |(timeToMillis ts : ℤ) - (timeToMillis cur.timestamp : ℤ)| then
          finalizePerm st
        else
          match matchXSAuth item.line, cur.perms.xsAuth with
          | some a, none =>
            (st.1, some { cur with perms := { cur.perms with xsAuth := some (jsTrim a) } })
          | _, _ =>
            match matchXSPreset item.line, cur.perms.xsPreset with
            | some pr, none =>
              (st.1, some { cur with perms := { cur.perms with xsPreset := some (jsTrim pr) } })
            | _, _ => st

/-- Translation of `parsePermissions` (src/App.tsx 263-344): fold the loop
body over all line records, then finalize any still-open group. -/
def parsePermissions (linesWithTimestamps : List LineRec) : List PermissionSnapshot :=
  (finalizePerm (linesWithTimestamps.foldl permStep ([], none))).1

/-- Property asserted by claim C1 for an emitted snapshot: all three
fields are present and non-empty after trimming. -/
def snapshotAllFields (s : PermissionSnapshot) : Prop :=
  ∃ f a p, s.permissions = ⟨some f, some a, some p⟩ ∧
    jsTrim f ≠ "" ∧ jsTrim a ≠ "" ∧ jsTrim p ≠ ""

theorem permComplete_fields {p : PermissionSet} (h : permComplete p = true) :
    ∃ f a pr, p = ⟨some f, some a, some pr⟩ ∧
      jsTrim f ≠ "" ∧ jsTrim a ≠ "" ∧ jsTrim pr ≠ "" := by
  unfold permComplete at h
  split at h
  case _ f a pr hf ha hp =>
    simp only [decide_eq_true_eq] at h
    obtain ⟨p1, p2, p3⟩ := p
    simp only at hf ha hp
    exact ⟨f, a, pr, by rw [hf, ha, hp], h.2.1, h.2.2.2.1, h.2.2.2.2.2⟩
  case _ => exact absurd h (by simp)

theorem mem_finalizePerm {s : PermissionSnapshot}
    {st : List PermissionSnapshot × Option PermGroup}
    (h : s ∈ (finalizePerm st).1) : s ∈ st.1 ∨ snapshotAllFields s := by
  unfold finalizePerm at h
  split at h
  · exact Or.inl h
  · split at h
    · rename_i g hg
      simp only [List.mem_append, List.mem_singleton] at h
      rcases h with h | h
      · exact Or.inl h
      · right
        obtain ⟨f, a, pr, hperm, h1, h2, h3⟩ := permComplete_fields hg
        exact ⟨f, a, pr, by rw [h]; exact hperm, h1, h2, h3⟩
    · exact Or.inl h

theorem mem_permStep {s : PermissionSnapshot}
    {st : List PermissionSnapshot × Option PermGroup} {item : LineRec}
    (h : s ∈ (permStep st item).1) : s ∈ st.1 ∨ snapshotAllFields s := by
  unfold permStep at h
  split at h
  · exact Or.inl h
  · split at h
    · split at h
      · exact mem_finalizePerm h
      · exact mem_finalizePerm h
    · split at h
      · exact Or.inl h
      · split at h
        · exact mem_finalizePerm h
        · split at h
          · exact Or.inl h
          · split at h
            · exact Or.inl h
            · exact Or.inl h

theorem mem_permFold {s : PermissionSnapshot} :
    ∀ (L : List LineRec) (st : List PermissionSnapshot × Option PermGroup),
      s ∈ (L.foldl permStep st).1 → s ∈ st.1 ∨ snapshotAllFields s := by
  intro L
  induction L with
  | nil => intro st h; exact Or.inl h
  | cons a as ih =>
    intro st h
    rcases ih (permStep st a) h with h1 | h1
    · exact mem_permStep h1
    · exact Or.inr h1

/-- Claim C1 (confirmed).  Every Permission Snapshot emitted by
`parsePermissions` has all three fields present and non-empty after
trimming (incomplete in-progress groups are discarded by
`finalizePerm` and yield no snapshot); and the concrete two-line sequence
built from a timestamped `Features: A` line immediately followed by a
timestamped `XSAuth: B` line (no `XSPreset`) yields zero snapshots. -/
theorem permission_snapshots_complete :
    (∀ (input : List LineRec) (s : PermissionSnapshot),
        s ∈ parsePermissions input → snapshotAllFields s) ∧
      parsePermissions (mkLineRecords
        ["DA 123 09:00:00.000 Features: A", "DA 123 09:00:00.100 XSAuth: B"]) = [] := by
  constructor
  · intro input s h
    unfold parsePermissions at h
    rcases mem_finalizePerm h with h1 | h1
    · rcases mem_permFold input ([], none) h1 with h2 | h2
      · simp at h2
      · exact h2
    · exact h1
  · decide

/-- Concrete complete three-line permission sequence. -/
def permWitnessInput : List LineRec :=
  mkLineRecords ["DA 123 09:00:00.000 Features: A", "DA 123 09:00:00.100 XSAuth: B",
    "DA 123 09:00:00.200 XSPreset: C"]

/-- Concrete snapshot emitted for `permWitnessInput`. -/
def permWitnessSnapshot : PermissionSnapshot :=
  ⟨"09:00:00.000", ⟨some "A", some "B", some "C"⟩⟩

/-- Witness for `permission_snapshots_complete`: a concrete three-line
sequence produces a snapshot, and the theorem applies to it. -/
theorem permission_snapshots_complete_witness :
    permWitnessSnapshot ∈ parsePermissions permWitnessInput ∧
      snapshotAllFields permWitnessSnapshot :=
  ⟨by decide, permission_snapshots_complete.1 permWitnessInput permWitnessSnapshot (by decide)⟩

/-! ## Event-Count Parser (`parseAndCountLogEvents`, src/App.tsx 43-54)

The predicates model `/\berror\b/i` and `/\bwarn(?:ing)?\b/i`: a match
exists at some position iff a word boundary precedes the literal there and
a word boundary follows it (for `warn`, either the optional `ing` is taken
and a boundary follows it, or a boundary follows `warn` directly). -/

/-- Word-boundary test against the character following a literal whose
last character is a word character: boundary iff at end or before a
non-word character. -/
def afterBoundary : List Char → Bool
  | [] => true
  | d :: _ => !wordChar d

/-- Word-boundary test against the character preceding a literal whose
first character is a word character: boundary iff at start or after a
non-word character. -/
def beforeBoundary : Option Char → Bool
  | none => true
  | some p => !wordChar p

/-- Match of `error\b` (case-insensitively) at the current position. -/
def errorAt (t : List Char) : Bool :=
  match stripCI "error".data t with
  | some rest => afterBoundary rest
  | none => false

/-- Match of `warn(?:ing)?\b` (case-insensitively) at the current
position: the greedy optional group and backtracking make a match exist
iff either alternative closes on a word boundary. -/
def warnAt (t : List Char) : Bool :=
  match stripCI "warn".data t with
  | some rest =>
    (match stripCI "ing".data rest with
     | some rest2 => afterBoundary rest2
     | none => false) || afterBoundary rest
  | none => false

/-- Whole-subject search for a word-boundary-preceded match of `atQ`,
carrying the previous character for the `\b` assertion. -/
def testWord (atQ : List Char → Bool) : Option Char → List Char → Bool
  | _, [] => false
  | prev, c :: cs => (beforeBoundary prev && atQ (c :: cs)) || testWord atQ (some c) cs

/-- Test of `/\berror\b/i` on a whole line. -/
def testError (line : String) : Bool := testWord errorAt none line.data

/-- Test of `/\bwarn(?:ing)?\b/i` on a whole line. -/
def testWarn (line : String) : Bool := testWord warnAt none line.data

structure LogStatistics where
  errorCount : ℕ
  warnCount : ℕ
deriving DecidableEq, Repr

/-- Translation of `parseAndCountLogEvents` (src/App.tsx 43-54). -/
def parseAndCountLogEvents (lines : List String) : LogStatistics :=
  lines.foldl
    (fun st line =>
      ⟨if testError line then st.errorCount + 1 else st.errorCount,
       if testWarn line then st.warnCount + 1 else st.warnCount⟩)
    ⟨0, 0⟩

/-! ## Chunked Filtered Line Deliverer (`displayLogChunk`, src/App.tsx 471-513) -/

/-- Page size constant `LINES_PER_CHUNK_DISPLAY` (src/App.tsx 23). -/
def LINES_PER_CHUNK_DISPLAY : ℕ := 500

/-- Translation of the TypeScript `ActiveLogFilter` union
(`'error' | 'warn' | null`). -/
inductive ActiveLogFilter where
  | error
  | warn
  | null
deriving DecidableEq, Repr

/-- State of the deliverer: the four React state fields read and written
by `displayLogChunk` (the transient `isLogLoadingMore` UI flag is not part
of the data behaviour and is omitted). -/
structure ChunkState where
  filteredAndLoadedLines : List String
  currentDisplayEndIndex : ℕ
  hasMoreLogContent : Bool
  displayedLogContent : String
deriving DecidableEq, Repr

/-- Filter application of the `isCompletelyNewDisplay` branch of
`displayLogChunk` (src/App.tsx 483-492). -/
def filteredLinesFor (sourceLinesToUse : List String) : ActiveLogFilter → List String
  | .error => sourceLinesToUse.filter testError
  | .warn => sourceLinesToUse.filter testWarn
  | .null => sourceLinesToUse

/-- Translation of `displayLogChunk` (src/App.tsx 471-513).  On a new
display the filtered subset is recomputed and the cursor starts at 0; on
"load more" the stored subset and cursor are used.  The served chunk is
`slice(start, min(start+500, length))`; the displayed text is replaced on
a new display and appended (with a `\n` separator unless the previous
content is empty) otherwise. -/
def displayLogChunk (st : ChunkState) (sourceLinesToUse : List String)
    (filterToApplyToSource : ActiveLogFilter) (isCompletelyNewDisplay : Bool) : ChunkState :=
  let L := if isCompletelyNewDisplay then filteredLinesFor sourceLinesToUse filterToApplyToSource
           else st.filteredAndLoadedLines
  let start := if isCompletelyNewDisplay then 0 else st.currentDisplayEndIndex
  let endIdx := min (start + LINES_PER_CHUNK_DISPLAY) L.length
  let chunk := (L.drop start).take (endIdx - start)
  let displayed :=
    if isCompletelyNewDisplay then String.intercalate "\n" chunk
    else (if st.displayedLogContent = "" then "" else st.displayedLogContent ++ "\n") ++
      String.intercalate "\n" chunk
  ⟨L, endIdx, decide (endIdx < L.length), displayed⟩

/-- Translation of `handleLoadMoreLogContent` (src/App.tsx 718-723) in the
quiescent state (a file is loaded and no load is in flight, so the
`currentLogFullFile`, `isLogLoading` and `isLogLoadingMore` guards pass):
a requested "load more" runs `displayLogChunk` in append mode only when
`hasMoreLogContent` holds, and otherwise changes nothing. -/
def handleLoadMoreLogContent (st : ChunkState) (allLoadedLogLines : List String)
    (activeFilter : ActiveLogFilter) : ChunkState :=
  if st.hasMoreLogContent then displayLogChunk st allLoadedLogLines activeFilter false
  else st

/-- Concrete 1200-line input of the pagination example of claim C3. -/
def chunkWitnessLines : List String := (List.range 1200).map (fun n => "line" ++ toString n)

/-- Initial empty deliverer state. -/
def chunkStart : ChunkState := ⟨[], 0, false, ""⟩

/-- Reachable-state invariant of the deliverer used by claim C3. -/
def ChunkInv (lines : List String) (st : ChunkState) : Prop :=
  st.filteredAndLoadedLines = lines ∧
    st.currentDisplayEndIndex ≤ lines.length ∧
    st.hasMoreLogContent = decide (st.currentDisplayEndIndex < lines.length)

theorem displayLogChunk_new (st : ChunkState) (src : List String) (f : ActiveLogFilter) :
    displayLogChunk st src f true =
      ⟨filteredLinesFor src f,
        min LINES_PER_CHUNK_DISPLAY (filteredLinesFor src f).length,
        decide (min LINES_PER_CHUNK_DISPLAY (filteredLinesFor src f).length <
          (filteredLinesFor src f).length),
        String.intercalate "\n"
          ((filteredLinesFor src f).take
            (min LINES_PER_CHUNK_DISPLAY (filteredLinesFor src f).length))⟩ := by
  unfold displayLogChunk
  simp

theorem chunkInv_new (st : ChunkState) (src : List String) (f : ActiveLogFilter) :
    ChunkInv (filteredLinesFor src f) (displayLogChunk st src f true) := by
  rw [displayLogChunk_new]
  exact ⟨rfl, Nat.min_le_right _ _, rfl⟩

set_option maxRecDepth 40000 in
/-- Claim C3 (confirmed).  With page size 500: a (re)start display serves
exactly lines `0 .. min(500,N)-1` and sets the cursor to `min(500,N)`; a
"load more" in a reachable state with cursor before `N` appends exactly
the next `min(500, N-cursor)` lines (joined, separated from non-empty
previous content by a newline) and advances the cursor by that amount,
preserving the invariant; the has-more flag of a reachable state is true
exactly when the cursor is strictly below `N`; a "load more" once the
cursor has reached `N` changes nothing; and the concrete 1200-line run
pages 0-499, 0-999, then all 1200, after which load more is a no-op. -/
theorem chunked_deliverer_pagination :
    (∀ (st : ChunkState) (src : List String) (f : ActiveLogFilter),
        displayLogChunk st src f true =
          ⟨filteredLinesFor src f,
            min 500 (filteredLinesFor src f).length,
            decide (min 500 (filteredLinesFor src f).length < (filteredLinesFor src f).length),
            String.intercalate "\n"
              ((filteredLinesFor src f).take (min 500 (filteredLinesFor src f).length))⟩ ∧
          ChunkInv (filteredLinesFor src f) (displayLogChunk st src f true)) ∧
    (∀ (lines : List String) (st : ChunkState) (src : List String) (f : ActiveLogFilter),
        ChunkInv lines st →
        st.currentDisplayEndIndex < lines.length →
        handleLoadMoreLogContent st src f =
          ⟨lines,
            st.currentDisplayEndIndex +
              min 500 (lines.length - st.currentDisplayEndIndex),
            decide (st.currentDisplayEndIndex +
              min 500 (lines.length - st.currentDisplayEndIndex) < lines.length),
            (if st.displayedLogContent = "" then "" else st.displayedLogContent ++ "\n") ++
              String.intercalate "\n"
                ((lines.drop st.currentDisplayEndIndex).take
                  (min 500 (lines.length - st.currentDisplayEndIndex)))⟩ ∧
          ChunkInv lines (handleLoadMoreLogContent st src f)) ∧
    (∀ (lines : List String) (st : ChunkState) (src : List String) (f : ActiveLogFilter),
        ChunkInv lines st →
        st.currentDisplayEndIndex = lines.length →
        handleLoadMoreLogContent st src f = st) ∧
    (∀ (lines : List String) (st : ChunkState),
        ChunkInv lines st →
        (st.hasMoreLogContent = true ↔ st.currentDisplayEndIndex < lines.length)) ∧
    ((displayLogChunk chunkStart chunkWitnessLines .null true).currentDisplayEndIndex = 500 ∧
      (displayLogChunk chunkStart chunkWitnessLines .null true).hasMoreLogContent = true ∧
      (handleLoadMoreLogContent (displayLogChunk chunkStart chunkWitnessLines .null true)
          chunkWitnessLines .null).currentDisplayEndIndex = 1000 ∧
      (handleLoadMoreLogContent (displayLogChunk chunkStart chunkWitnessLines .null true)
          chunkWitnessLines .null).hasMoreLogContent = true ∧
      (handleLoadMoreLogContent (handleLoadMoreLogContent
          (displayLogChunk chunkStart chunkWitnessLines .null true)
          chunkWitnessLines .null) chunkWitnessLines .null).currentDisplayEndIndex = 1200 ∧
      (handleLoadMoreLogContent (handleLoadMoreLogContent
          (displayLogChunk chunkStart chunkWitnessLines .null true)
          chunkWitnessLines .null) chunkWitnessLines .null).hasMoreLogContent = false ∧
      handleLoadMoreLogContent (handleLoadMoreLogContent (handleLoadMoreLogContent
          (displayLogChunk chunkStart chunkWitnessLines .null true)
          chunkWitnessLines .null) chunkWitnessLines .null) chunkWitnessLines .null =
        handleLoadMoreLogContent (handleLoadMoreLogContent
          (displayLogChunk chunkStart chunkWitnessLines .null true)
          chunkWitnessLines .null) chunkWitnessLines .null) := by
  have hA : ∀ (st : ChunkState) (src : List String) (f : ActiveLogFilter),
      displayLogChunk st src f true =
        ⟨filteredLinesFor src f,
          min 500 (filteredLinesFor src f).length,
          decide (min 500 (filteredLinesFor src f).length < (filteredLinesFor src f).length),
          String.intercalate "\n"
            ((filteredLinesFor src f).take (min 500 (filteredLinesFor src f).length))⟩ ∧
        ChunkInv (filteredLinesFor src f) (displayLogChunk st src f true) := by
    intro st src f
    exact ⟨displayLogChunk_new st src f, chunkInv_new st src f⟩
  have hB : ∀ (lines : List String) (st : ChunkState) (src : List String) (f : ActiveLogFilter),
      ChunkInv lines st →
      st.currentDisplayEndIndex < lines.length →
      handleLoadMoreLogContent st src f =
        ⟨lines,
          st.currentDisplayEndIndex + min 500 (lines.length - st.currentDisplayEndIndex),
          decide (st.currentDisplayEndIndex +
            min 500 (lines.length - st.currentDisplayEndIndex) < lines.length),
          (if st.displayedLogContent = "" then "" else st.displayedLogContent ++ "\n") ++
            String.intercalate "\n"
              ((lines.drop st.currentDisplayEndIndex).take
                (min 500 (lines.length - st.currentDisplayEndIndex)))⟩ ∧
        ChunkInv lines (handleLoadMoreLogContent st src f) := by
    intro lines st src f hinv hlt
    obtain ⟨hL, hle, hmore⟩ := hinv
    have hbool : st.hasMoreLogContent = true := by
      rw [hmore]; exact decide_eq_true hlt
    have hstep : handleLoadMoreLogContent st src f = displayLogChunk st src f false := by
      unfold handleLoadMoreLogContent; rw [hbool]; simp
    have hmin : min (st.currentDisplayEndIndex + LINES_PER_CHUNK_DISPLAY) lines.length =
        st.currentDisplayEndIndex + min 500 (lines.length - st.currentDisplayEndIndex) := by
      unfold LINES_PER_CHUNK_DISPLAY; omega
    have hsub : st.currentDisplayEndIndex +
        min 500 (lines.length - st.currentDisplayEndIndex) - st.currentDisplayEndIndex =
        min 500 (lines.length - st.currentDisplayEndIndex) := by omega
    constructor
    · rw [hstep]
      unfold displayLogChunk
      simp only [if_neg (by simp : ¬ (false = true)), hL]
      rw [hmin, hsub]
    · rw [hstep]
      unfold displayLogChunk
      simp only [if_neg (by simp : ¬ (false = true)), hL]
      refine ⟨rfl, ?_, rfl⟩
      simp only
      omega
  have hD : ∀ (lines : List String) (st : ChunkState) (src : List String) (f : ActiveLogFilter),
      ChunkInv lines st →
      st.currentDisplayEndIndex = lines.length →
      handleLoadMoreLogContent st src f = st := by
    intro lines st src f hinv heq
    obtain ⟨hL, hle, hmore⟩ := hinv
    have hbool : st.hasMoreLogContent = false := by
      rw [hmore, heq]; simp
    unfold handleLoadMoreLogContent
    rw [hbool]
    simp
  have hlen : (filteredLinesFor chunkWitnessLines .null).length = 1200 := by
    simp [filteredLinesFor, chunkWitnessLines]
  have h1 := displayLogChunk_new chunkStart chunkWitnessLines .null
  have inv1 : ChunkInv (filteredLinesFor chunkWitnessLines .null)
      (displayLogChunk chunkStart chunkWitnessLines .null true) :=
    chunkInv_new chunkStart chunkWitnessLines .null
  have hcur1 : (displayLogChunk chunkStart chunkWitnessLines .null true).currentDisplayEndIndex
      = 500 := by
    rw [h1]
    show min 500 (filteredLinesFor chunkWitnessLines .null).length = 500
    rw [hlen]
    omega
  have h2 := hB (filteredLinesFor chunkWitnessLines .null)
    (displayLogChunk chunkStart chunkWitnessLines .null true) chunkWitnessLines .null inv1
    (by rw [hcur1, hlen]; norm_num)
  have hcur2 : (handleLoadMoreLogContent (displayLogChunk chunkStart chunkWitnessLines .null true)
      chunkWitnessLines .null).currentDisplayEndIndex = 1000 := by
    rw [h2.1]
    show (displayLogChunk chunkStart chunkWitnessLines .null true).currentDisplayEndIndex +
      min 500 ((filteredLinesFor chunkWitnessLines .null).length -
        (displayLogChunk chunkStart chunkWitnessLines .null true).currentDisplayEndIndex) = 1000
    rw [hcur1, hlen]
    omega
  have h3 := hB (filteredLinesFor chunkWitnessLines .null)
    (handleLoadMoreLogContent (displayLogChunk chunkStart chunkWitnessLines .null true)
      chunkWitnessLines .null) chunkWitnessLines .null h2.2 (by rw [hcur2, hlen]; norm_num)
  have hcur3 : (handleLoadMoreLogContent (handleLoadMoreLogContent
      (displayLogChunk chunkStart chunkWitnessLines .null true)
      chunkWitnessLines .null) chunkWitnessLines .null).currentDisplayEndIndex = 1200 := by
    rw [h3.1]
    show (handleLoadMoreLogContent (displayLogChunk chunkStart chunkWitnessLines .null true)
        chunkWitnessLines .null).currentDisplayEndIndex +
      min 500 ((filteredLinesFor chunkWitnessLines .null).length -
        (handleLoadMoreLogContent (displayLogChunk chunkStart chunkWitnessLines .null true)
          chunkWitnessLines .null).currentDisplayEndIndex) = 1200
    rw [hcur2, hlen]
    omega
  have hnoop := hD (filteredLinesFor chunkWitnessLines .null)
    (handleLoadMoreLogContent (handleLoadMoreLogContent
      (displayLogChunk chunkStart chunkWitnessLines .null true)
      chunkWitnessLines .null) chunkWitnessLines .null) chunkWitnessLines .null h3.2
    (by rw [hcur3, hlen])
  refine ⟨hA, hB, hD, fun lines st hinv => by rw [hinv.2.2]; simp,
    hcur1, ?_, hcur2, ?_, hcur3, ?_, hnoop⟩
  · rw [h1]
    show decide (min 500 (filteredLinesFor chunkWitnessLines .null).length <
      (filteredLinesFor chunkWitnessLines .null).length) = true
    rw [hlen]
    simp only [decide_eq_true_eq]
    omega
  · rw [h2.1]
    show decide ((displayLogChunk chunkStart chunkWitnessLines .null true).currentDisplayEndIndex +
      min 500 ((filteredLinesFor chunkWitnessLines .null).length -
        (displayLogChunk chunkStart chunkWitnessLines .null true).currentDisplayEndIndex) <
      (filteredLinesFor chunkWitnessLines .null).length) = true
    rw [hcur1, hlen]
    simp only [decide_eq_true_eq]
    omega
  · rw [h3.1]
    show decide ((handleLoadMoreLogContent (displayLogChunk chunkStart chunkWitnessLines .null true)
        chunkWitnessLines .null).currentDisplayEndIndex +
      min 500 ((filteredLinesFor chunkWitnessLines .null).length -
        (handleLoadMoreLogContent (displayLogChunk chunkStart chunkWitnessLines .null true)
          chunkWitnessLines .null).currentDisplayEndIndex) <
      (filteredLinesFor chunkWitnessLines .null).length) = false
    rw [hcur2, hlen]
    simp only [decide_eq_false_iff_not]
    omega

/-- Witness for `chunked_deliverer_pagination`: the "load more" clause of
the theorem is applied at a concrete reachable-invariant state with two
filtered lines and cursor 1, appending the one remaining line. -/
theorem chunked_deliverer_pagination_witness :
    ChunkInv ["a", "b"] ⟨["a", "b"], 1, true, "a"⟩ ∧
      handleLoadMoreLogContent ⟨["a", "b"], 1, true, "a"⟩ ["a", "b"] .null =
        ⟨["a", "b"], 2, false, "a" ++ "\n" ++ "b"⟩ := by
  have hinv : ChunkInv ["a", "b"] ⟨["a", "b"], 1, true, "a"⟩ := ⟨rfl, by norm_num, by decide⟩
  have h := chunked_deliverer_pagination.2.1 ["a", "b"] ⟨["a", "b"], 1, true, "a"⟩
    ["a", "b"] .null hinv (by decide)
  refine ⟨hinv, ?_⟩
  rw [h.1]
  decide

/-- Claim C10 (confirmed).  The error count of the Event-Count Parser
equals the length of the filtered subset the deliverer computes for the
`error` filter, and likewise for `warn`: both use the same whole-word
case-insensitive predicates. -/
theorem counts_match_filtered_lengths (st : ChunkState) (lines : List String) :
    (parseAndCountLogEvents lines).errorCount =
      ((displayLogChunk st lines .error true).filteredAndLoadedLines).length ∧
    (parseAndCountLogEvents lines).warnCount =
      ((displayLogChunk st lines .warn true).filteredAndLoadedLines).length := by
  have hcount : ∀ (L : List String) (e w : ℕ),
      L.foldl (fun st line =>
        (⟨if testError line then st.errorCount + 1 else st.errorCount,
          if testWarn line then st.warnCount + 1 else st.warnCount⟩ : LogStatistics))
        ⟨e, w⟩ =
      ⟨e + L.countP testError, w + L.countP testWarn⟩ := by
    intro L
    induction L with
    | nil => intro e w; simp
    | cons a as ih =>
      intro e w
      simp only [List.foldl_cons, List.countP_cons, ih, LogStatistics.mk.injEq]
      constructor
      · by_cases h : testError a = true
        · simp only [if_pos h]
          omega
        · simp only [if_neg h]
          omega
      · by_cases h : testWarn a = true
        · simp only [if_pos h]
          omega
        · simp only [if_neg h]
          omega
  rw [displayLogChunk_new, displayLogChunk_new]
  unfold parseAndCountLogEvents
  rw [hcount]
  simp only [filteredLinesFor]
  constructor
  · simp [List.countP_eq_length_filter]
  · simp [List.countP_eq_length_filter]

/-! ## Indicator Lifecycle Correlator (`parseXSIndicatorSvcClientLog`,
src/App.tsx 346-394) -/

/-- Captures of `createIndicatorRegex` (src/App.tsx 352): the groups of
`/CreateIndicator IndicatorID:([^,]+), Name:([^,]+), MainSymbolID:([^,]+), Freq:(\S+)/`,
untrimmed.  Each `[^,]+` is a greedy nonempty run of non-comma characters
that must be followed by the next literal (which begins with a comma, so
matching is deterministic); `(\S+)` is a greedy nonempty run of
non-whitespace. -/
structure CreateCaptures where
  id : String
  name : String
  mainSymbolId : String
  freq : String
deriving DecidableEq, Repr

/-- Captures of `startIndicatorRegex` (src/App.tsx 353), untrimmed. -/
structure StartCaptures where
  id : String
  totalBar : String
  firstBarDate : String
  tDayCount : String
  alignType : String
  alignMode : String
  sync : String
  addFakeBar : String
  autoCloseK : String
deriving DecidableEq, Repr

/-- Sequence of `literal` + `([^,]+)` regex pieces: for each literal in
turn, match it and then the greedy nonempty run of non-comma characters
that captures the following group.  Each `[^,]+` is followed by a literal
beginning with a comma, so greedy matching is deterministic. -/
def fieldSeq : List (List Char) → List Char → Option (List (List Char) × List Char)
  | [], t => some ([], t)
  | lit :: lits, t =>
    match stripL lit t with
    | none => none
    | some t1 =>
      match run1 (fun c => c ≠ ',') t1 with
      | none => none
      | some (g, t2) =>
        match fieldSeq lits t2 with
        | none => none
        | some (gs, t3) => some (g :: gs, t3)

/-- Single-position attempt of `createIndicatorRegex`: the three
`literal ([^,]+)` pieces, then the literal `, Freq:` and the final greedy
`(\S+)`. -/
def createAttempt (t : List Char) : Option CreateCaptures :=
  match fieldSeq ["CreateIndicator IndicatorID:".data, ", Name:".data,
      ", MainSymbolID:".data] t with
  | some ([g1, g2, g3], u) =>
    match stripL ", Freq:".data u with
    | none => none
    | some t7 =>
      match run1 (fun c => !jsSpace c) t7 with
      | none => none
      | some (g4, _) => some ⟨⟨g1⟩, ⟨g2⟩, ⟨g3⟩, ⟨g4⟩⟩
  | _ => none

/-- Leftmost match of `createIndicatorRegex` on a line. -/
def matchCreate (line : String) : Option CreateCaptures :=
  scan1 createAttempt line.data

/-- Single-position attempt of `startIndicatorRegex`: the eight
`literal ([^,]+)` pieces, then the literal `, AutoCloseK:` and the final
greedy `(\S+)`. -/
def startAttempt (t : List Char) : Option StartCaptures :=
  match fieldSeq ["StartXSIndicator IndicatorID:".data, ", TotalBar:".data,
      ", FirstBarDate:".data, ", TDayCount:".data, ", AlignType:".data,
      ", AlignMode:".data, ", Sync:".data, ", AddFakeBar:".data] t with
  | some ([g1, g2, g3, g4, g5, g6, g7, g8], u) =>
    match stripL ", AutoCloseK:".data u with
    | none => none
    | some t9 =>
      match run1 (fun c => !jsSpace c) t9 with
      | none => none
      | some (g9, _) => some ⟨⟨g1⟩, ⟨g2⟩, ⟨g3⟩, ⟨g4⟩, ⟨g5⟩, ⟨g6⟩, ⟨g7⟩, ⟨g8⟩, ⟨g9⟩⟩
  | _ => none

/-- Leftmost match of `startIndicatorRegex` on a line. -/
def matchStart (line : String) : Option StartCaptures :=
  scan1 startAttempt line.data

/-- Translation of the TypeScript `IndicatorCreationInfo` record stored in
the `createdIndicators` lookup table. -/
structure IndicatorCreationInfo where
  id : String
  name : String
  mainSymbolId : String
  freq : String
  creationTimestamp : String
deriving DecidableEq, Repr

/-- Translation of the TypeScript `IndicatorStartEvent`. -/
structure IndicatorStartEvent where
  startTimestamp : String
  indicatorId : String
  name : Option String
  mainSymbolId : Option String
  freq : Option String
  totalBar : String
  firstBarDate : String
  tDayCount : String
  alignType : String
  alignMode : String
  sync : String
  addFakeBar : String
  autoCloseK : String
deriving DecidableEq, Repr

/-- State of the correlator's single forward pass: the
`createdIndicators` lookup table (keyed by the raw captured id, as
`createdIndicators[id]` is) and the accumulated `startedEvents`. -/
def XSState : Type := (String → Option IndicatorCreationInfo) × List IndicatorStartEvent

/-- Event constructed for a start line: enrichment fields are copied from
the table entry when present (`creationInfo?.name` etc.), otherwise
absent. -/
def mkStartEvent (ts : String) (sc : StartCaptures)
    (ci : Option IndicatorCreationInfo) : IndicatorStartEvent :=
  ⟨ts, jsTrim sc.id, ci.map (·.name), ci.map (·.mainSymbolId), ci.map (·.freq),
    jsTrim sc.totalBar, jsTrim sc.firstBarDate, jsTrim sc.tDayCount, jsTrim sc.alignType,
    jsTrim sc.alignMode, jsTrim sc.sync, jsTrim sc.addFakeBar, jsTrim sc.autoCloseK⟩

/-- Loop body of `parseXSIndicatorSvcClientLog` for one record: lines
without a timestamp are skipped; a creation line stores/overwrites the
table entry for its raw id (fields trimmed at store time) and is consumed;
otherwise a start line emits an event enriched from the table as of this
point. -/
def xsStep (st : XSState) (item : LineRec) : XSState :=
  match item.timestamp with
  | none => st
  | some ts =>
    match matchCreate item.line with
    | some cc =>
      (fun k => if k = cc.id then
          some ⟨cc.id, jsTrim cc.name, jsTrim cc.mainSymbolId, jsTrim cc.freq, ts⟩
        else st.1 k, st.2)
    | none =>
      match matchStart item.line with
      | some sc => (st.1, st.2 ++ [mkStartEvent ts sc (st.1 sc.id)])
      | none => st

/-- Translation of `parseXSIndicatorSvcClientLog` (src/App.tsx 346-394). -/
def parseXSIndicatorSvcClientLog (linesWithTimestamps : List LineRec) :
    List IndicatorStartEvent :=
  (linesWithTimestamps.foldl xsStep (fun _ => none, [])).2

theorem xsStep_split (st : XSState) (item : LineRec) :
    xsStep st item = ((xsStep (st.1, []) item).1, st.2 ++ (xsStep (st.1, []) item).2) := by
  unfold xsStep
  split
  · simp
  · split
    · simp
    · split
      · simp
      · simp

theorem xsFold_split (L : List LineRec) :
    ∀ (st : XSState),
      L.foldl xsStep st = ((L.foldl xsStep (st.1, [])).1, st.2 ++ (L.foldl xsStep (st.1, [])).2) := by
  induction L with
  | nil => intro st; simp
  | cons a as ih =>
    intro st
    simp only [List.foldl_cons]
    rw [xsStep_split st a, ih ((xsStep (st.1, []) a).1, st.2 ++ (xsStep (st.1, []) a).2),
      ih (xsStep (st.1, []) a)]
    simp

/-- Table preservation: a segment containing no timestamped creation line
for a given raw id leaves the table entry of that id unchanged. -/
theorem xsFold_table_const (i : String) :
    ∀ (L : List LineRec) (st : XSState),
      (∀ r ∈ L, r.timestamp.isSome →
        ∀ cc, matchCreate r.line = some cc → cc.id ≠ i) →
      (L.foldl xsStep st).1 i = st.1 i := by
  intro L
  induction L with
  | nil => intro st _; rfl
  | cons a as ih =>
    intro st hno
    simp only [List.foldl_cons]
    rw [ih (xsStep st a) (fun r hr => hno r (List.mem_cons_of_mem a hr))]
    unfold xsStep
    split
    · rfl
    · rename_i ts hts
      split
      · rename_i cc hcc
        have hne : cc.id ≠ i :=
          hno a (List.mem_cons_self a as) (by rw [hts]; rfl) cc hcc
        simp only
        rw [if_neg (fun h => hne h.symm)]
      · split
        · rfl
        · rfl

/-- Reduction of the loop body on a timestamped creation line. -/
theorem xsStep_create (st : XSState) (item : LineRec) (ts : String) (cc : CreateCaptures)
    (h1 : item.timestamp = some ts) (h2 : matchCreate item.line = some cc) :
    xsStep st item =
      (fun k => if k = cc.id then
          some ⟨cc.id, jsTrim cc.name, jsTrim cc.mainSymbolId, jsTrim cc.freq, ts⟩
        else st.1 k, st.2) := by
  simp only [xsStep, h1, h2]

/-- Reduction of the loop body on a timestamped start line that is not a
creation line. -/
theorem xsStep_start (st : XSState) (item : LineRec) (ts : String) (sc : StartCaptures)
    (h1 : item.timestamp = some ts) (h2 : matchCreate item.line = none)
    (h3 : matchStart item.line = some sc) :
    xsStep st item = (st.1, st.2 ++ [mkStartEvent ts sc (st.1 sc.id)]) := by
  simp only [xsStep, h1, h2, h3]

/-- Claim C6 (confirmed).  When an input contains two creation lines for
the same raw indicator id followed by a start line for that id (with no
further timestamped creation line for the id between the second creation
and the start), the event emitted for the start line carries the second
(most recent) creation's name, mainSymbolId and freq: the later
`CreateIndicator` replaced the earlier table entry (last-write-wins). -/
theorem indicator_last_creation_wins
    (A B C : List LineRec) (c1l c2l sl : LineRec)
    (t1 t2 ts : String) (cc1 cc2 : CreateCaptures) (sc : StartCaptures)
    (hc1ts : c1l.timestamp = some t1) (hc1 : matchCreate c1l.line = some cc1)
    (hc2ts : c2l.timestamp = some t2) (hc2 : matchCreate c2l.line = some cc2)
    (hsame : cc1.id = cc2.id)
    (hsts : sl.timestamp = some ts) (hsnc : matchCreate sl.line = none)
    (hs : matchStart sl.line = some sc) (hsid : sc.id = cc2.id)
    (hC : ∀ r ∈ C, r.timestamp.isSome →
      ∀ cc, matchCreate r.line = some cc → cc.id ≠ cc2.id) :
    (parseXSIndicatorSvcClientLog (A ++ [c1l] ++ B ++ [c2l] ++ C ++ [sl])).getLast? =
      some (mkStartEvent ts sc
        (some ⟨cc2.id, jsTrim cc2.name, jsTrim cc2.mainSymbolId, jsTrim cc2.freq, t2⟩)) := by
  unfold parseXSIndicatorSvcClientLog
  rw [List.foldl_append]
  have htable : ((A ++ [c1l] ++ B ++ [c2l] ++ C).foldl xsStep (fun _ => none, [])).1 sc.id =
      some ⟨cc2.id, jsTrim cc2.name, jsTrim cc2.mainSymbolId, jsTrim cc2.freq, t2⟩ := by
    rw [hsid]
    rw [List.foldl_append, xsFold_table_const cc2.id C _ hC, List.foldl_append]
    simp only [List.foldl_cons, List.foldl_nil]
    rw [xsStep_create _ c2l t2 cc2 hc2ts hc2]
    simp
  simp only [List.foldl_cons, List.foldl_nil]
  rw [xsStep_start _ sl ts sc hsts hsnc hs]
  simp only [htable, List.getLast?_concat]

/-- Witness input for `indicator_last_creation_wins`: two creations for id
7, then a start for id 7. -/
def xsWitnessCreate1 : LineRec :=
  ⟨"X 1 09:00:00.000 CreateIndicator IndicatorID:7, Name:Old, MainSymbolID:AAA, Freq:D",
    some "09:00:00.000", 0⟩

/-- Second, most recent creation line of the witness. -/
def xsWitnessCreate2 : LineRec :=
  ⟨"X 1 09:00:01.000 CreateIndicator IndicatorID:7, Name:New, MainSymbolID:BBB, Freq:W",
    some "09:00:01.000", 1⟩

/-- Start line of the witness. -/
def xsWitnessStart : LineRec :=
  ⟨"X 1 09:00:02.000 StartXSIndicator IndicatorID:7, TotalBar:100, FirstBarDate:20240101, TDayCount:5, AlignType:1, AlignMode:2, Sync:1, AddFakeBar:0, AutoCloseK:1",
    some "09:00:02.000", 2⟩

/-- Witness for `indicator_last_creation_wins` at a concrete input. -/
theorem indicator_last_creation_wins_witness :
    (parseXSIndicatorSvcClientLog [xsWitnessCreate1, xsWitnessCreate2, xsWitnessStart]).getLast? =
      some (mkStartEvent "09:00:02.000"
        ⟨"7", "100", "20240101", "5", "1", "2", "1", "0", "1"⟩
        (some ⟨"7", "New", "BBB", "W", "09:00:01.000"⟩)) := by
  have h := indicator_last_creation_wins [] [] [] xsWitnessCreate1 xsWitnessCreate2
    xsWitnessStart "09:00:00.000" "09:00:01.000" "09:00:02.000"
    ⟨"7", "Old", "AAA", "D"⟩ ⟨"7", "New", "BBB", "W"⟩
    ⟨"7", "100", "20240101", "5", "1", "2", "1", "0", "1"⟩
    (by decide) (by decide) (by decide) (by decide) (by decide) (by decide) (by decide)
    (by decide) (by decide) (by intro r hr; simp at hr)
  simpa using h

/-- Claim C7 (confirmed).  A timestamped start line whose raw id has no
timestamped creation line anywhere before it in file order still emits an
event (never dropped), with the enrichment fields name, mainSymbolId and
freq all absent. -/
theorem indicator_start_without_creation
    (P : List LineRec) (sl : LineRec) (ts : String) (sc : StartCaptures)
    (hsts : sl.timestamp = some ts) (hsnc : matchCreate sl.line = none)
    (hs : matchStart sl.line = some sc)
    (hP : ∀ r ∈ P, r.timestamp.isSome →
      ∀ cc, matchCreate r.line = some cc → cc.id ≠ sc.id) :
    (parseXSIndicatorSvcClientLog (P ++ [sl])).getLast? = some (mkStartEvent ts sc none) ∧
      (mkStartEvent ts sc none).name = none ∧
      (mkStartEvent ts sc none).mainSymbolId = none ∧
      (mkStartEvent ts sc none).freq = none := by
  refine ⟨?_, rfl, rfl, rfl⟩
  unfold parseXSIndicatorSvcClientLog
  rw [List.foldl_append]
  have htable : ((P.foldl xsStep (fun _ => none, [])).1) sc.id = none := by
    rw [xsFold_table_const sc.id P _ hP]
  simp only [List.foldl_cons, List.foldl_nil]
  rw [xsStep_start _ sl ts sc hsts hsnc hs]
  simp only [htable, List.getLast?_concat]

/-- Witness for `indicator_start_without_creation`: a lone start line for
id 42 with no prior creation. -/
theorem indicator_start_without_creation_witness :
    (parseXSIndicatorSvcClientLog
        [⟨"X 1 09:00:02.000 StartXSIndicator IndicatorID:42, TotalBar:100, FirstBarDate:20240101, TDayCount:5, AlignType:1, AlignMode:2, Sync:1, AddFakeBar:0, AutoCloseK:1",
          some "09:00:02.000", 0⟩]).getLast? =
      some (mkStartEvent "09:00:02.000"
        ⟨"42", "100", "20240101", "5", "1", "2", "1", "0", "1"⟩ none) ∧
      (mkStartEvent "09:00:02.000"
        ⟨"42", "100", "20240101", "5", "1", "2", "1", "0", "1"⟩ none).name = none ∧
      (mkStartEvent "09:00:02.000"
        ⟨"42", "100", "20240101", "5", "1", "2", "1", "0", "1"⟩ none).mainSymbolId = none ∧
      (mkStartEvent "09:00:02.000"
        ⟨"42", "100", "20240101", "5", "1", "2", "1", "0", "1"⟩ none).freq = none := by
  have h := indicator_start_without_creation []
    ⟨"X 1 09:00:02.000 StartXSIndicator IndicatorID:42, TotalBar:100, FirstBarDate:20240101, TDayCount:5, AlignType:1, AlignMode:2, Sync:1, AddFakeBar:0, AutoCloseK:1",
      some "09:00:02.000", 0⟩
    "09:00:02.000" ⟨"42", "100", "20240101", "5", "1", "2", "1", "0", "1"⟩
    (by decide) (by decide) (by decide) (by intro r hr; simp at hr)
  simpa using h

/-! ## Memory metric parser (`parseMemoryUsage`, src/App.tsx 56-73) -/

/-- Test of `line.includes("XQ Used Mem:")`, the case-sensitive fast
pre-check of the memory parser. -/
def containsMarker (line : String) : Bool :=
  (scan1 (stripL "XQ Used Mem:".data) line.data).isSome

/-- Greedy `.*` between two regex pieces: `.*` consumes any run of
non-LineTerminator characters, longest first, backtracking to shorter runs
until the tail pattern `f` matches at the remainder. -/
def greedyDotStar (f : List Char → Option α) : List Char → Option α
  | [] => f []
  | c :: cs =>
    if lineTerm c then f (c :: cs)
    else
      match greedyDotStar f cs with
      | some r => some r
      | none => f (c :: cs)

/-- Tail of `memoryRegex` after `.*`: `XQ Used Mem:\s*(\d+)\s*MB` with the
`i` flag; each greedy piece is followed by a literal no character of its
class can begin, so matching is deterministic. -/
def memTail (u : List Char) : Option (List Char) := do
  let u1 ← stripCI "XQ Used Mem:".data u
  let (d, u3) ← run1 Char.isDigit (u1.dropWhile jsSpace)
  let _ ← stripCI "MB".data (u3.dropWhile jsSpace)
  some d

/-- Single-position attempt of `memoryRegex`
`/(\d{2}:\d{2}:\d{2}\.\d{3}).*XQ Used Mem:\s*(\d+)\s*MB/i`: the timestamp
group, then greedy `.*`, then the tail.  Returns group 1 (the timestamp)
and group 2 (the digit run). -/
def memAttempt (t : List Char) : Option (String × List Char) := do
  let (ts, rest) ← takeTS t
  let d ← greedyDotStar memTail rest
  some (⟨ts⟩, d)

/-- Leftmost match of `memoryRegex` on a line. -/
def matchMemory (line : String) : Option (String × List Char) :=
  scan1 memAttempt line.data

/-- Value of `parseInt` on a nonempty digit run. -/
def natOfDigits (l : List Char) : ℕ := l.foldl (fun a c => a * 10 + dv c) 0

/-- Translation of the TypeScript `MemoryUsageDataPoint`. -/
structure MemoryUsageDataPoint where
  timestamp : String
  memoryMB : ℕ
  originalLogTime : String
deriving DecidableEq, Repr

/-- Loop body of `parseMemoryUsage` for one line: marker pre-check, full
regex match, then the push.  Both captured groups are nonempty on a match,
so the source's `match[1] && match[2]` truthiness test passes, and
`parseInt` of a digit run is never `NaN`, so the `isNaN` guard never
fires. -/
def memStep (acc : List MemoryUsageDataPoint) (line : String) : List MemoryUsageDataPoint :=
  if containsMarker line then
    match matchMemory line with
    | some (ts, d) => acc ++ [⟨ts, natOfDigits d, ts⟩]
    | none => acc
  else acc

/-- Translation of `parseMemoryUsage` (src/App.tsx 56-73). -/
def parseMemoryUsage (lines : List String) : List MemoryUsageDataPoint :=
  lines.foldl memStep []

theorem memStep_append (acc : List MemoryUsageDataPoint) (line : String) :
    memStep acc line = acc ++ memStep [] line := by
  unfold memStep
  split
  · split
    · simp
    · simp
  · simp

theorem memFold_append (L : List String) :
    ∀ acc, L.foldl memStep acc = acc ++ L.foldl memStep [] := by
  induction L with
  | nil => intro acc; simp
  | cons a as ih =>
    intro acc
    simp only [List.foldl_cons]
    rw [memStep_append acc a, ih (acc ++ memStep [] a), ih (memStep [] a)]
    simp

/-- Claim C9 (confirmed).  A line that contains the marker text
`XQ Used Mem:` but on which the full memory regex does not match
contributes no data point: the parser's output over any surrounding lines
is unchanged by the line's presence, and the line alone parses to zero
points (no default or zero-valued point). -/
theorem memory_unparseable_line_skipped
    (pre post : List String) (l : String)
    (hmk : containsMarker l = true) (hnm : matchMemory l = none) :
    parseMemoryUsage (pre ++ l :: post) = parseMemoryUsage (pre ++ post) ∧
      parseMemoryUsage [l] = [] := by
  have hskip : ∀ acc, memStep acc l = acc := by
    intro acc
    unfold memStep
    rw [if_pos hmk, hnm]
  constructor
  · unfold parseMemoryUsage
    rw [List.foldl_append, List.foldl_append, List.foldl_cons, hskip]
  · unfold parseMemoryUsage
    simp only [List.foldl_cons, List.foldl_nil]
    exact hskip []

/-- Witness for `memory_unparseable_line_skipped`: a line with the marker
followed by a non-numeric value. -/
theorem memory_unparseable_line_skipped_witness :
    parseMemoryUsage (["DA 1 09:00:00.000 ok"] ++
        "DA 1 09:00:01.000 XQ Used Mem: abc MB" :: []) =
      parseMemoryUsage (["DA 1 09:00:00.000 ok"] ++ []) ∧
      parseMemoryUsage ["DA 1 09:00:01.000 XQ Used Mem: abc MB"] = [] :=
  memory_unparseable_line_skipped ["DA 1 09:00:00.000 ok"] []
    "DA 1 09:00:01.000 XQ Used Mem: abc MB" (by decide) (by decide)

/-! ## System Info Snapshot Builder (`parseSystemInfoForDA`, src/App.tsx 122-261) -/

/-- Single-position attempt of `/AP Version:\s*\[([^\]]+)\]/`: literal,
greedy `\s*`, literal `[`, greedy nonempty `[^\]]+` (deterministic, as it
must be followed by `]`), literal `]`. -/
def apAttempt (t : List Char) : Option String := do
  let t1 ← stripL "AP Version:".data t
  let t2 ← stripL "[".data (t1.dropWhile jsSpace)
  let (g, t3) ← run1 (fun c => c ≠ ']') t2
  let _ ← stripL "]".data t3
  some ⟨g⟩

/-- Leftmost match of the AP Version regex on a line. -/
def matchApVersion (line : String) : Option String :=
  scan1 apAttempt line.data

/-- Single-position attempt of `/CPU:\s*(.+)/`. -/
def cpuAttempt (t : List Char) : Option String :=
  (stripL "CPU:".data t).bind (fun r => (dotPlusAfterWS r).map (fun g => (⟨g⟩ : String)))

/-- Leftmost match of the CPU regex on a line. -/
def matchCpu (line : String) : Option String :=
  scan1 cpuAttempt line.data

/-- Single-position attempt of `/Total Physical Mem:\s*(\S+)/`: after the
literal and greedy `\s*`, a greedy nonempty run of non-whitespace
characters (backtracking cannot succeed otherwise, since `\S` rejects
every whitespace character `\s*` could give back). -/
def totalMemAttempt (t : List Char) : Option String := do
  let t1 ← stripL "Total Physical Mem:".data t
  let (g, _) ← run1 (fun c => !jsSpace c) (t1.dropWhile jsSpace)
  some (⟨g⟩ : String)

/-- Leftmost match of the total-memory regex on a line. -/
def matchTotalMem (line : String) : Option String :=
  scan1 totalMemAttempt line.data

/-- Single-position attempt of `/OS Version:\s*(.+)/`. -/
def osAttempt (t : List Char) : Option String :=
  (stripL "OS Version:".data t).bind (fun r => (dotPlusAfterWS r).map (fun g => (⟨g⟩ : String)))

/-- Leftmost match of the OS Version regex on a line. -/
def matchOs (line : String) : Option String :=
  scan1 osAttempt line.data

/-- Single-position attempt of `/DPI X:(\d+), Y:(\d+)/`. -/
def dpiAttempt (t : List Char) : Option (String × String) := do
  let t1 ← stripL "DPI X:".data t
  let (g1, t2) ← run1 Char.isDigit t1
  let t3 ← stripL ", Y:".data t2
  let (g2, _) ← run1 Char.isDigit t3
  some (⟨g1⟩, ⟨g2⟩)

/-- Leftmost match of the DPI regex on a line. -/
def matchDpi (line : String) : Option (String × String) :=
  scan1 dpiAttempt line.data

/-- Single-position attempt of
`/Monitor(\d+)\s*:\s*(monitor\([^)]+\)(?:,\s*work\([^)]+\))?)/`, returning
the monitor id (group 1) and the details text (group 2).  The greedy
optional `work` part is included exactly when the whole of it matches
right after the base part; otherwise the capture is the base part alone. -/
def monitorAttempt (t : List Char) : Option (String × String) := do
  let t1 ← stripL "Monitor".data t
  let (mid, t2) ← run1 Char.isDigit t1
  let t3 ← stripL ":".data (t2.dropWhile jsSpace)
  let t5 ← stripL "monitor(".data (t3.dropWhile jsSpace)
  let (b, t6) ← run1 (fun c => c ≠ ')') t5
  let t7 ← stripL ")".data t6
  let base := "monitor(".data ++ b ++ [')']
  match stripL ",".data t7 with
  | none => some (⟨mid⟩, ⟨base⟩)
  | some t8 =>
    match stripL "work(".data (t8.dropWhile jsSpace) with
    | none => some (⟨mid⟩, ⟨base⟩)
    | some t9 =>
      match run1 (fun c => c ≠ ')') t9 with
      | none => some (⟨mid⟩, ⟨base⟩)
      | some (b2, t10) =>
        match stripL ")".data t10 with
        | none => some (⟨mid⟩, ⟨base⟩)
        | some _ =>
          some (⟨mid⟩, ⟨base ++ [','] ++ t8.takeWhile jsSpace ++ "work(".data ++ b2 ++ [')']⟩)

/-- Leftmost match of the monitor regex on a line. -/
def matchMonitor (line : String) : Option (String × String) :=
  scan1 monitorAttempt line.data

/-- Single-position attempt of
`/monitor\([^,]+,[^,]+,\s*(\d+),\s*(\d+)\)/` (the resolution regex applied
to the captured monitor details). -/
def resAttempt (t : List Char) : Option (String × String) := do
  let t1 ← stripL "monitor(".data t
  let (_, t2) ← run1 (fun c => c ≠ ',') t1
  let t3 ← stripL ",".data t2
  let (_, t4) ← run1 (fun c => c ≠ ',') t3
  let t5 ← stripL ",".data t4
  let (g1, t6) ← run1 Char.isDigit (t5.dropWhile jsSpace)
  let t7 ← stripL ",".data t6
  let (g2, t8) ← run1 Char.isDigit (t7.dropWhile jsSpace)
  let _ ← stripL ")".data t8
  some (⟨g1⟩, ⟨g2⟩)

/-- Leftmost match of the monitor-resolution regex on the details text. -/
def matchResolution (details : String) : Option (String × String) :=
  scan1 resAttempt details.data

/-- Single-position attempt of `/ServerGroupName:\s*([^;]+)/i`: after the
case-insensitive literal, greedy `\s*` then nonempty `[^;]+`.  If the
character after the whitespace run is `;` (or the subject ends there),
backtracking gives the last whitespace character (never `;`) back to the
group; with no whitespace to give back the attempt fails. -/
def sgAttempt (t : List Char) : Option String := do
  let t1 ← stripCI "ServerGroupName:".data t
  match t1.dropWhile jsSpace with
  | c :: cs =>
    if c = ';' then
      match (t1.takeWhile jsSpace).getLast? with
      | some lw => some ⟨[lw]⟩
      | none => none
    else some ⟨(c :: cs).takeWhile (fun x => x ≠ ';')⟩
  | [] =>
    match (t1.takeWhile jsSpace).getLast? with
    | some lw => some ⟨[lw]⟩
    | none => none

/-- Leftmost match of the server-group regex on a line. -/
def matchServerGroup (line : String) : Option String :=
  scan1 sgAttempt line.data

/-- Translation of the TypeScript `ValueWithTimestamp<string>`. -/
structure ValueWithTimestamp where
  value : String
  timestamp : String
deriving DecidableEq, Repr

/-- Translation of the TypeScript `MonitorInfo`. -/
structure MonitorInfo where
  id : String
  resolution : String
  details : String
deriving DecidableEq, Repr

/-- Translation of `ValueWithTimestamp<MonitorInfo[]>`. -/
structure MonitorsValue where
  value : List MonitorInfo
  timestamp : String
deriving DecidableEq, Repr

/-- Translation of the TypeScript `SystemInfoSnapshot`.  The TypeScript
`allDatacenterConnections` is optional but set on every snapshot the
builder produces, so it is modelled as a plain list. -/
structure SystemInfoSnapshot where
  anchorTimestamp : String
  cpuModel : Option ValueWithTimestamp
  totalMemory : Option ValueWithTimestamp
  osVersion : Option ValueWithTimestamp
  dpi : Option ValueWithTimestamp
  monitors : Option MonitorsValue
  apVersion : Option ValueWithTimestamp
  allDatacenterConnections : List ValueWithTimestamp
deriving DecidableEq, Repr

/-- Line record with a present timestamp: the builder starts by filtering
`linesWithValidTimestamps` (src/App.tsx 124) and works on that array. -/
structure TRec where
  line : String
  timestamp : String
  originalIndex : ℤ
deriving DecidableEq, Repr

/-- The `linesWithValidTimestamps` array. -/
def timedRecords (logLinesWithTimestamps : List LineRec) : List TRec :=
  logLinesWithTimestamps.filterMap
    (fun r => r.timestamp.map (fun t => ⟨r.line, t, r.originalIndex⟩))

/-- Translation of the `collectedDatacenterConnections` pass
(src/App.tsx 135-144). -/
def collectedDatacenterConnections (L : List TRec) : List ValueWithTimestamp :=
  L.filterMap (fun it =>
    match matchServerGroup it.line with
    | some g =>
      if jsTrim g ≠ "" ∧ (jsTrim g).toLower ≠ "no data" then some ⟨jsTrim g, it.timestamp⟩
      else none
    | none => none)

/-- Primary anchor identification (src/App.tsx 146-148): the indices of
the timestamped lines matching the AP Version pattern, in file order. -/
def primaryAnchors (L : List TRec) : List ℕ :=
  L.enum.filterMap (fun p => if (matchApVersion p.2.line).isSome then some p.1 else none)

/-- Fast pre-check of the fallback anchor search (src/App.tsx 153): any of
the five info patterns. -/
def anyInfoPattern (line : String) : Bool :=
  (matchCpu line).isSome || (matchTotalMem line).isSome || (matchOs line).isSome ||
  (matchDpi line).isSome || (matchMonitor line).isSome

/-- Translation of the anchor list construction (src/App.tsx 146-161):
the primary anchors, or — when there are none and timestamped lines
exist — the single synthetic anchor found by taking the timestamp of the
first line matching any info pattern and then the first index with that
timestamp and a pattern match. -/
def anchorsOf (L : List TRec) : List ℕ :=
  if (primaryAnchors L).isEmpty && !L.isEmpty then
    match L.find? (fun it => anyInfoPattern it.line) with
    | some it => [L.findIdx (fun x => x.timestamp == it.timestamp && anyInfoPattern x.line)]
    | none => []
  else primaryAnchors L

/-- State of the backward window pass of one anchor (the four scalar
fields of `currentSnapshot` it writes, plus the `foundMonitors` and
`monitorsTimestamp` locals). -/
structure SIState where
  cpuModel : Option ValueWithTimestamp
  totalMemory : Option ValueWithTimestamp
  osVersion : Option ValueWithTimestamp
  dpi : Option ValueWithTimestamp
  foundMonitors : List MonitorInfo
  monitorsTimestamp : Option String
deriving DecidableEq, Repr

/-- Most-recent-wins update of one scalar field (src/App.tsx 193-212):
on a match, replace unless a held value has a strictly later timestamp.
The source condition `timeToSeconds(item) >= timeToSeconds(held)` is
expressed on integer milliseconds (equivalent by `tts_le_iff`). -/
def updVT (ex : String → Option String) (cur : Option ValueWithTimestamp) (it : TRec) :
    Option ValueWithTimestamp :=
  match ex it.line with
  | none => cur
  | some v =>
    match cur with
    | none => some ⟨v, it.timestamp⟩
    | some c =>
      if timeToMillis c.timestamp ≤ timeToMillis it.timestamp then some ⟨v, it.timestamp⟩
      else cur

/-- Extractor of the CPU model field (trimmed group). -/
def exCpu (line : String) : Option String := (matchCpu line).map jsTrim

/-- Extractor of the total-memory field (trimmed group). -/
def exMem (line : String) : Option String := (matchTotalMem line).map jsTrim

/-- Extractor of the OS version field (trimmed group). -/
def exOs (line : String) : Option String := (matchOs line).map jsTrim

/-- Extractor of the DPI field, formatted as the source formats it. -/
def exDpi (line : String) : Option String :=
  (matchDpi line).map (fun p => "X:" ++ p.1 ++ ", Y:" ++ p.2)

/-- Monitor entry built from a monitor line (src/App.tsx 216-226): id
prefixed with `Monitor`, resolution from the resolution regex or `N/A`. -/
def monitorEntry (mid details : String) : MonitorInfo :=
  ⟨"Monitor" ++ mid,
    match matchResolution details with
    | some p => p.1 ++ "x" ++ p.2
    | none => "N/A",
    details⟩

/-- Monitor list update of the window pass (src/App.tsx 214-230),
translated faithfully: the lookup `findIndex(m => m.id === monitorId)`
compares the stored id (`"Monitor" + id`) with the raw captured id, so it
never finds an entry and the update branch is unreachable. -/
def monitorsUpdate (mons : List MonitorInfo) (it : TRec) : List MonitorInfo :=
  match matchMonitor it.line with
  | none => mons
  | some (mid, det) =>
    match mons.findIdx? (fun m => m.id == mid) with
    | none => mons ++ [monitorEntry mid det]
    | some j => mons.set j (monitorEntry mid det)

/-- Monitors-timestamp update (src/App.tsx 231-233): latest monitor line
timestamp; the strict `>` of the source is expressed on integer
milliseconds (`tts_lt_iff`), and the falsy test accepts both the initial
null and an empty string. -/
def monitorsTsUpdate (mts : Option String) (it : TRec) : Option String :=
  match matchMonitor it.line with
  | none => mts
  | some _ =>
    match mts with
    | none => some it.timestamp
    | some t =>
      if t = "" ∨ timeToMillis t < timeToMillis it.timestamp then some it.timestamp else mts

/-- One iteration of the window pass (src/App.tsx 193-235).  The source
applies the five updates sequentially to disjoint mutable locals and no
update reads a value another one writes, so the simultaneous record
update is the same function. -/
def siStep (s : SIState) (it : TRec) : SIState :=
  ⟨updVT exCpu s.cpuModel it, updVT exMem s.totalMemory it, updVT exOs s.osVersion it,
    updVT exDpi s.dpi it, monitorsUpdate s.foundMonitors it,
    monitorsTsUpdate s.monitorsTimestamp it⟩

/-- Initial window-pass state: all fields unset. -/
def initialSIState : SIState := ⟨none, none, none, none, [], none⟩

/-- Fuel-indexed body of the numeric-aware comparison (structural
recursion on the fuel, so that it evaluates under `decide`; each step
strictly shrinks the combined length, so any fuel above it is enough). -/
def numCmpFuel : ℕ → List Char → List Char → Ordering
  | 0, _, _ => .eq
  | _ + 1, [], [] => .eq
  | _ + 1, [], _ :: _ => .lt
  | _ + 1, _ :: _, [] => .gt
  | fuel + 1, c :: cs, d :: ds =>
    if c.isDigit && d.isDigit then
      match compare (natOfDigits ((c :: cs).takeWhile Char.isDigit))
          (natOfDigits ((d :: ds).takeWhile Char.isDigit)) with
      | .eq => numCmpFuel fuel ((c :: cs).dropWhile Char.isDigit) ((d :: ds).dropWhile Char.isDigit)
      | o => o
    else if c = d then numCmpFuel fuel cs ds
    else compare c.toNat d.toNat

/-- Numeric-aware string comparison modelling
`a.localeCompare(b, undefined, {numeric: true})` for the ASCII ids built
by the window pass: maximal digit runs are compared by numeric value,
other characters by code point.  For the ids produced here
(`"Monitor" ++ digits`) this is exactly the comparator the source sorts
with. -/
def numCmp (a b : List Char) : Ordering :=
  numCmpFuel (a.length + b.length + 1) a b

/-- Strict comparator used for the stable sort of the monitor list. -/
def monLt (a b : MonitorInfo) : Bool := numCmp a.id.data b.id.data == .lt

/-- Stable insertion of one element: an element moves before `y` only when
strictly smaller, so equal-comparing elements keep their relative order. -/
def insertMon (x : MonitorInfo) : List MonitorInfo → List MonitorInfo
  | [] => [x]
  | y :: ys => if monLt x y then x :: y :: ys else y :: insertMon x ys

/-- Stable sort of the monitor list (src/App.tsx 238): a model of
`Array.prototype.sort` (stable per the language specification) with the
numeric-aware comparator. -/
def sortMonitors (l : List MonitorInfo) : List MonitorInfo :=
  l.foldl (fun acc x => insertMon x acc) []

/-- Backward window of an anchor (src/App.tsx 187-188):
`slice(max(0, i-50), i+1)`, i.e. the up-to-50 timestamped lines preceding
the anchor plus the anchor itself. -/
def windowAt (L : List TRec) (i : ℕ) : List TRec :=
  (L.drop (i - 50)).take (i + 1 - (i - 50))

/-- Snapshot built for one anchor index (src/App.tsx 163-248, before the
`hasData` emission filter).  `anchorCount` is the length of the anchor
list, consulted by the single-anchor backward rescue scan; the
`monitors` placeholder of the source is overwritten or deleted before the
snapshot is visible, so the final value is constructed directly. -/
def snapshotAt (L : List TRec) (dc : List ValueWithTimestamp) (anchorCount : ℕ) (i : ℕ) :
    SystemInfoSnapshot :=
  let a := L.getD i ⟨"", "", 0⟩
  let apv : Option ValueWithTimestamp :=
    match matchApVersion a.line with
    | some v => some ⟨v, a.timestamp⟩
    | none =>
      if anchorCount = 1 ∧ 0 < L.length then
        L.reverse.findSome? (fun it => (matchApVersion it.line).map (fun v => ⟨v, it.timestamp⟩))
      else none
  let s := (windowAt L i).foldl siStep initialSIState
  let monsOpt : Option MonitorsValue :=
    if s.foundMonitors ≠ [] then
      some ⟨sortMonitors s.foundMonitors,
        match s.monitorsTimestamp with
        | some t => if t = "" then a.timestamp else t
        | none => a.timestamp⟩
    else none
  ⟨a.timestamp, s.cpuModel, s.totalMemory, s.osVersion, s.dpi, monsOpt, apv, dc⟩

/-- Emission test of src/App.tsx 245: at least one scalar field, an AP
version, or a non-empty monitor list. -/
def hasData (s : SystemInfoSnapshot) : Bool :=
  s.apVersion.isSome || s.cpuModel.isSome || s.totalMemory.isSome || s.osVersion.isSome ||
  s.dpi.isSome || (match s.monitors with | some m => !m.value.isEmpty | none => false)

/-- Translation of `parseSystemInfoForDA` (src/App.tsx 122-261): snapshots
for every anchor, filtered by `hasData`, with the degenerate
datacenter-only fallback when nothing was emitted. -/
def parseSystemInfoForDA (logLinesWithTimestamps : List LineRec) : List SystemInfoSnapshot :=
  let L := timedRecords logLinesWithTimestamps
  let dc := collectedDatacenterConnections L
  let anchors := anchorsOf L
  let snaps := (anchors.map (snapshotAt L dc anchors.length)).filter hasData
  if snaps.isEmpty && !dc.isEmpty then
    [⟨(dc.headD ⟨"", ""⟩).timestamp, none, none, none, none, none, none, dc⟩]
  else snaps

/-! ## Most-recent-wins specification for the window scalar fields
(claim C4) -/

/-- Millisecond key of a candidate value (its timestamp under the
builder's time arithmetic, `tts_le_iff`/`tts_lt_iff` equivalent to
`timeToSeconds` comparisons). -/
def latestKey (x : ValueWithTimestamp) : ℕ := timeToMillis x.timestamp

/-- Maximum millisecond key over a candidate list (0 for the empty
list). -/
def maxMillis (l : List ValueWithTimestamp) : ℕ :=
  l.foldl (fun m x => max m (latestKey x)) 0

/-- Specification of "most-recent-wins, ties broken by later file
position": the candidate at the last position whose key attains the
maximum. -/
def latestWins (l : List ValueWithTimestamp) : Option ValueWithTimestamp :=
  l.reverse.find? (fun x => latestKey x == maxMillis l)

/-- Update step of the source's per-field fold, on the extracted
candidate. -/
def updLatest (cur : Option ValueWithTimestamp) (x : ValueWithTimestamp) :
    Option ValueWithTimestamp :=
  match cur with
  | none => some x
  | some c => if timeToMillis c.timestamp ≤ timeToMillis x.timestamp then some x else cur

/-- Candidates of one extractor over a window, in window order. -/
def fieldPairs (ex : String → Option String) (w : List TRec) : List ValueWithTimestamp :=
  w.filterMap (fun it => (ex it.line).map (fun v => ⟨v, it.timestamp⟩))

theorem updVT_eq (ex : String → Option String) (cur : Option ValueWithTimestamp) (it : TRec) :
    updVT ex cur it =
      match ex it.line with
      | none => cur
      | some v => updLatest cur ⟨v, it.timestamp⟩ := by
  unfold updVT updLatest
  cases ex it.line
  · rfl
  · rfl

theorem maxMillis_init_le (l : List ValueWithTimestamp) :
    ∀ s : ℕ, s ≤ l.foldl (fun m x => max m (latestKey x)) s := by
  induction l with
  | nil => intro s; simp
  | cons a as ih =>
    intro s
    exact Nat.le_trans (Nat.le_max_left s (latestKey a)) (ih _)

theorem le_foldl_max_of_mem (l : List ValueWithTimestamp) :
    ∀ (s : ℕ) (x : ValueWithTimestamp), x ∈ l →
      latestKey x ≤ l.foldl (fun m y => max m (latestKey y)) s := by
  induction l with
  | nil => intro s x hx; simp at hx
  | cons a as ih =>
    intro s x hx
    rcases List.mem_cons.mp hx with h | h
    · subst h
      exact Nat.le_trans (Nat.le_max_right s (latestKey x)) (maxMillis_init_le as _)
    · exact ih _ x h

theorem foldl_max_attained (l : List ValueWithTimestamp) :
    ∀ s : ℕ, l.foldl (fun m y => max m (latestKey y)) s = s ∨
      ∃ x ∈ l, l.foldl (fun m y => max m (latestKey y)) s = latestKey x := by
  induction l with
  | nil => intro s; exact Or.inl rfl
  | cons a as ih =>
    intro s
    rcases ih (max s (latestKey a)) with h | ⟨x, hx, he⟩
    · rcases max_choice s (latestKey a) with hm | hm
      · exact Or.inl (by rw [List.foldl_cons, h, hm])
      · exact Or.inr ⟨a, List.mem_cons_self a as, by rw [List.foldl_cons, h, hm]⟩
    · exact Or.inr ⟨x, List.mem_cons_of_mem a hx, by rw [List.foldl_cons, he]⟩

theorem maxMillis_attained {l : List ValueWithTimestamp} (h : l ≠ []) :
    ∃ x ∈ l, latestKey x = maxMillis l := by
  rcases l with _ | ⟨a, as⟩
  · exact absurd rfl h
  · rcases foldl_max_attained (a :: as) 0 with h0 | ⟨x, hx, he⟩
    · refine ⟨a, List.mem_cons_self a as, ?_⟩
      have h1 := le_foldl_max_of_mem (a :: as) 0 a (List.mem_cons_self a as)
      unfold maxMillis
      omega
    · exact ⟨x, hx, he.symm⟩

theorem maxMillis_concat (l : List ValueWithTimestamp) (x : ValueWithTimestamp) :
    maxMillis (l ++ [x]) = max (maxMillis l) (latestKey x) := by
  unfold maxMillis
  rw [List.foldl_append]
  rfl

theorem latestWins_spec (l : List ValueWithTimestamp) :
    l.foldl updLatest none = latestWins l := by
  induction l using List.reverseRecOn with
  | nil => rfl
  | append_singleton l x ih =>
    rw [List.foldl_append, List.foldl_cons, List.foldl_nil, ih]
    rcases eq_or_ne l [] with hl | hl
    · subst hl
      have hpx : ((fun y => latestKey y == maxMillis ([] ++ [x])) x) = true := by
        simp [maxMillis, latestKey]
      have h2 : latestWins ([] ++ [x]) = some x := by
        unfold latestWins
        rw [show (([] : List ValueWithTimestamp) ++ [x]).reverse = [x] by simp]
        exact List.find?_cons_of_pos _ hpx
      rw [h2]
      rfl
    · obtain ⟨y, hy, hkey⟩ := maxMillis_attained hl
      have hfind : ∃ m, latestWins l = some m := by
        have hsome : (l.reverse.find? (fun z => latestKey z == maxMillis l)).isSome = true := by
          rw [List.find?_isSome]
          exact ⟨y, List.mem_reverse.mpr hy, by rw [hkey]; exact beq_self_eq_true _⟩
        exact Option.isSome_iff_exists.mp hsome
      obtain ⟨m, hm⟩ := hfind
      have hkeym : latestKey m = maxMillis l := by
        have := List.find?_some hm
        exact beq_iff_eq.mp this
      rcases Nat.lt_or_ge (latestKey x) (maxMillis l) with hlt | hge
      · have hmax : maxMillis (l ++ [x]) = maxMillis l := by
          rw [maxMillis_concat]
          exact Nat.max_eq_left (Nat.le_of_lt hlt)
        have hpx : ((fun y => latestKey y == maxMillis (l ++ [x])) x) = false := by
          rw [hmax]
          exact beq_eq_false_iff_ne.mpr (Nat.ne_of_lt hlt)
        have h2 : latestWins (l ++ [x]) = latestWins l := by
          unfold latestWins
          rw [show (l ++ [x]).reverse = x :: l.reverse by simp]
          rw [List.find?_cons_of_neg _ (by simp [hpx]), hmax]
        have hcond : ¬ timeToMillis m.timestamp ≤ timeToMillis x.timestamp := by
          unfold latestKey at hkeym hlt
          omega
        rw [h2, hm]
        simp only [updLatest]
        rw [if_neg hcond]
      · have hmax : maxMillis (l ++ [x]) = latestKey x := by
          rw [maxMillis_concat]
          exact Nat.max_eq_right hge
        have hpx : ((fun y => latestKey y == maxMillis (l ++ [x])) x) = true := by
          rw [hmax]
          exact beq_self_eq_true _
        have h2 : latestWins (l ++ [x]) = some x := by
          unfold latestWins
          rw [show (l ++ [x]).reverse = x :: l.reverse by simp]
          exact List.find?_cons_of_pos _ hpx
        have hcond : timeToMillis m.timestamp ≤ timeToMillis x.timestamp := by
          unfold latestKey at hkeym hge
          omega
        rw [h2, hm]
        simp only [updLatest]
        rw [if_pos hcond]

theorem siFold_cpuModel (w : List TRec) :
    ∀ s0 : SIState,
      (w.foldl siStep s0).cpuModel = w.foldl (fun c it => updVT exCpu c it) s0.cpuModel := by
  induction w with
  | nil => intro s0; rfl
  | cons a as ih =>
    intro s0
    simp only [List.foldl_cons]
    rw [ih]
    rfl

theorem siFold_totalMemory (w : List TRec) :
    ∀ s0 : SIState,
      (w.foldl siStep s0).totalMemory = w.foldl (fun c it => updVT exMem c it) s0.totalMemory := by
  induction w with
  | nil => intro s0; rfl
  | cons a as ih =>
    intro s0
    simp only [List.foldl_cons]
    rw [ih]
    rfl

theorem siFold_osVersion (w : List TRec) :
    ∀ s0 : SIState,
      (w.foldl siStep s0).osVersion = w.foldl (fun c it => updVT exOs c it) s0.osVersion := by
  induction w with
  | nil => intro s0; rfl
  | cons a as ih =>
    intro s0
    simp only [List.foldl_cons]
    rw [ih]
    rfl

theorem siFold_dpi (w : List TRec) :
    ∀ s0 : SIState,
      (w.foldl siStep s0).dpi = w.foldl (fun c it => updVT exDpi c it) s0.dpi := by
  induction w with
  | nil => intro s0; rfl
  | cons a as ih =>
    intro s0
    simp only [List.foldl_cons]
    rw [ih]
    rfl

theorem foldl_updVT_eq (ex : String → Option String) (w : List TRec) :
    ∀ cur : Option ValueWithTimestamp,
      w.foldl (fun c it => updVT ex c it) cur = (fieldPairs ex w).foldl updLatest cur := by
  induction w with
  | nil => intro cur; rfl
  | cons a as ih =>
    intro cur
    simp only [List.foldl_cons, fieldPairs, List.filterMap_cons]
    rw [updVT_eq]
    cases hx : ex a.line
    · simp only [Option.map_none]
      exact ih cur
    · simp only [Option.map_some, List.foldl_cons]
      exact ih _

/-- Claim C4 (confirmed).  For every anchor and each of the four scalar
fields, the value kept in the snapshot built for that anchor is the
matching value of the backward window (the up-to-50 timestamped lines
preceding the anchor plus the anchor itself) with the latest timestamp,
ties between equal timestamps broken in favour of the later file position
(`latestWins` picks the last candidate attaining the maximal key). -/
theorem system_info_latest_wins (input : List LineRec) (i : ℕ)
    (hi : i ∈ anchorsOf (timedRecords input)) :
    (snapshotAt (timedRecords input) (collectedDatacenterConnections (timedRecords input))
        (anchorsOf (timedRecords input)).length i).cpuModel =
      latestWins (fieldPairs exCpu (windowAt (timedRecords input) i)) ∧
    (snapshotAt (timedRecords input) (collectedDatacenterConnections (timedRecords input))
        (anchorsOf (timedRecords input)).length i).totalMemory =
      latestWins (fieldPairs exMem (windowAt (timedRecords input) i)) ∧
    (snapshotAt (timedRecords input) (collectedDatacenterConnections (timedRecords input))
        (anchorsOf (timedRecords input)).length i).osVersion =
      latestWins (fieldPairs exOs (windowAt (timedRecords input) i)) ∧
    (snapshotAt (timedRecords input) (collectedDatacenterConnections (timedRecords input))
        (anchorsOf (timedRecords input)).length i).dpi =
      latestWins (fieldPairs exDpi (windowAt (timedRecords input) i)) := by
  refine ⟨?_, ?_, ?_, ?_⟩
  · show ((windowAt (timedRecords input) i).foldl siStep initialSIState).cpuModel = _
    rw [siFold_cpuModel, show initialSIState.cpuModel = none from rfl, foldl_updVT_eq,
      latestWins_spec]
  · show ((windowAt (timedRecords input) i).foldl siStep initialSIState).totalMemory = _
    rw [siFold_totalMemory, show initialSIState.totalMemory = none from rfl, foldl_updVT_eq,
      latestWins_spec]
  · show ((windowAt (timedRecords input) i).foldl siStep initialSIState).osVersion = _
    rw [siFold_osVersion, show initialSIState.osVersion = none from rfl, foldl_updVT_eq,
      latestWins_spec]
  · show ((windowAt (timedRecords input) i).foldl siStep initialSIState).dpi = _
    rw [siFold_dpi, show initialSIState.dpi = none from rfl, foldl_updVT_eq,
      latestWins_spec]

/-- Concrete input of the C4 witness: two CPU lines (the later wins) and
an AP Version anchor. -/
def siWitnessInput : List LineRec :=
  mkLineRecords ["X 1 09:00:00.000 CPU: OldCpu", "X 1 09:00:01.000 CPU: NewCpu",
    "X 1 09:00:02.000 AP Version: [1.0]"]

/-- Witness for `system_info_latest_wins` at the concrete anchor index 2:
the CPU model kept is the later line's value. -/
theorem system_info_latest_wins_witness :
    2 ∈ anchorsOf (timedRecords siWitnessInput) ∧
    (snapshotAt (timedRecords siWitnessInput)
        (collectedDatacenterConnections (timedRecords siWitnessInput))
        (anchorsOf (timedRecords siWitnessInput)).length 2).cpuModel =
      latestWins (fieldPairs exCpu (windowAt (timedRecords siWitnessInput) 2)) ∧
    latestWins (fieldPairs exCpu (windowAt (timedRecords siWitnessInput) 2)) =
      some ⟨"NewCpu", "09:00:01.000"⟩ :=
  ⟨by decide, (system_info_latest_wins siWitnessInput 2 (by decide)).1, by decide⟩

/-! ## Single-anchor AP-Version rescue rule (claim C2) -/

/-- Every anchor produced by the primary identification pass is, by
construction, the index of a line matching the AP Version pattern. -/
theorem primaryAnchors_match (L : List TRec) (i : ℕ) (hi : i ∈ primaryAnchors L) :
    (matchApVersion (L.getD i ⟨"", "", 0⟩).line).isSome = true := by
  unfold primaryAnchors at hi
  rw [List.mem_filterMap] at hi
  obtain ⟨p, hp, hpi⟩ := hi
  split at hpi
  · rename_i hsome
    have hpfst : p.1 = i := by
      simpa using hpi
    have hget : L.get? p.1 = some p.2 := List.mem_enum_iff_get?.mp hp
    have hgetD : L.getD i ⟨"", "", 0⟩ = p.2 := by
      rw [List.getD_eq_getElem?_getD, ← List.get?_eq_getElem?, ← hpfst, hget]
      rfl
    rw [hgetD]
    exact hsome
  · exact absurd hpi (by simp)

/-- With no primary anchors, no timestamped line matches the AP Version
pattern at all. -/
theorem primaryAnchors_nil (L : List TRec) (h : primaryAnchors L = [])
    (it : TRec) (hit : it ∈ L) : matchApVersion it.line = none := by
  unfold primaryAnchors at h
  rw [List.filterMap_eq_nil] at h
  have hmem : ∃ p ∈ L.enum, p.2 = it := by
    have := List.enum_map_snd L
    rw [← this] at hit
    exact List.mem_map.mp hit
  obtain ⟨p, hp, hpe⟩ := hmem
  have := h p hp
  split at this
  · exact absurd this (by simp)
  · rename_i hns
    rw [← hpe]
    exact Option.not_isSome_iff_eq_none.mp (by simpa using hns)

/-- Claim C2 (corrected).  The rescue rule cannot be triggered by a
primary-pass anchor: every primary anchor's line matches the AP Version
pattern (first conjunct).  The backward rescue scan runs exactly when the
final anchor list (primary or fallback synthetic) has one element whose
line has no AP Version match — which forces the primary pass to have
produced zero anchors, so no timestamped line matches the pattern, the
backward scan over the timestamped lines finds nothing, and the
snapshot's apVersion is left absent (second conjunct). -/
theorem single_anchor_rescue (input : List LineRec) :
    (∀ i ∈ primaryAnchors (timedRecords input),
        (matchApVersion ((timedRecords input).getD i ⟨"", "", 0⟩).line).isSome = true) ∧
    (∀ i, anchorsOf (timedRecords input) = [i] →
      matchApVersion ((timedRecords input).getD i ⟨"", "", 0⟩).line = none →
      (snapshotAt (timedRecords input) (collectedDatacenterConnections (timedRecords input))
          (anchorsOf (timedRecords input)).length i).apVersion =
        (timedRecords input).reverse.findSome?
          (fun it => (matchApVersion it.line).map (fun v => ⟨v, it.timestamp⟩)) ∧
      (snapshotAt (timedRecords input) (collectedDatacenterConnections (timedRecords input))
          (anchorsOf (timedRecords input)).length i).apVersion = none) := by
  refine ⟨fun i hi => primaryAnchors_match _ i hi, ?_⟩
  intro i hanch hnone
  have hprim : primaryAnchors (timedRecords input) = [] := by
    by_contra hne
    have hanch2 : anchorsOf (timedRecords input) = primaryAnchors (timedRecords input) := by
      unfold anchorsOf
      rw [if_neg]
      intro hcond
      exact hne (List.isEmpty_iff.mp (Bool.and_eq_true_iff.mp hcond).1)
    have : i ∈ primaryAnchors (timedRecords input) := by
      rw [← hanch2, hanch]
      exact List.mem_singleton.mpr rfl
    have := primaryAnchors_match _ i this
    rw [hnone] at this
    simp at this
  have hlen : 0 < (timedRecords input).length := by
    by_contra hz
    have hempty : timedRecords input = [] := List.length_eq_zero.mp (by omega)
    have hnil : anchorsOf (timedRecords input) = [] := by
      unfold anchorsOf
      rw [hempty]
      decide
    rw [hanch] at hnil
    simp at hnil
  have hscan : (timedRecords input).reverse.findSome?
      (fun it => (matchApVersion it.line).map (fun v => ⟨v, it.timestamp⟩)) =
      (none : Option ValueWithTimestamp) := by
    rw [List.findSome?_eq_none]
    intro it hit
    rw [primaryAnchors_nil _ hprim it (List.mem_reverse.mp hit)]
    rfl
  have hap : (snapshotAt (timedRecords input)
      (collectedDatacenterConnections (timedRecords input))
      (anchorsOf (timedRecords input)).length i).apVersion =
      (timedRecords input).reverse.findSome?
        (fun it => (matchApVersion it.line).map (fun v => ⟨v, it.timestamp⟩)) := by
    unfold snapshotAt
    simp only [hnone]
    rw [if_pos]
    exact ⟨by rw [hanch]; rfl, hlen⟩
  exact ⟨hap, by rw [hap, hscan]⟩

/-- Concrete input refuting claim C2's description of the rescue rule: a
single timestamped CPU line. -/
def rescueCounterInput : List LineRec :=
  mkLineRecords ["X 1 09:00:00.000 CPU: Intel"]

/-- Counterexample to claim C2 as stated.  At this concrete input the
builder is in the single-anchor-without-AP-match situation the rescue rule
covers, yet the primary anchor-identification pass produced zero anchors
(not exactly one, refuting the claim's trigger description — by
`primaryAnchors_match` a single primary anchor always carries an AP
Version match, so the claim's precondition cannot be met), and the
backward scan finds no AP Version occurrence to use: the emitted
snapshot's apVersion is absent rather than "the most recent AP Version
occurrence". -/
theorem single_anchor_rescue_counterexample :
    primaryAnchors (timedRecords rescueCounterInput) = [] ∧
    anchorsOf (timedRecords rescueCounterInput) = [0] ∧
    matchApVersion ((timedRecords rescueCounterInput).getD 0 ⟨"", "", 0⟩).line = none ∧
    (snapshotAt (timedRecords rescueCounterInput)
        (collectedDatacenterConnections (timedRecords rescueCounterInput)) 1 0).apVersion =
      none ∧
    parseSystemInfoForDA rescueCounterInput =
      [⟨"09:00:00.000", some ⟨"Intel", "09:00:00.000"⟩, none, none, none, none, none, []⟩] := by
  refine ⟨by decide, by decide, by decide, by decide, by decide⟩

/-- Witness for `single_anchor_rescue` at the concrete input. -/
theorem single_anchor_rescue_witness :
    (snapshotAt (timedRecords rescueCounterInput)
        (collectedDatacenterConnections (timedRecords rescueCounterInput))
        (anchorsOf (timedRecords rescueCounterInput)).length 0).apVersion =
      (timedRecords rescueCounterInput).reverse.findSome?
        (fun it => (matchApVersion it.line).map (fun v => ⟨v, it.timestamp⟩)) ∧
    (snapshotAt (timedRecords rescueCounterInput)
        (collectedDatacenterConnections (timedRecords rescueCounterInput))
        (anchorsOf (timedRecords rescueCounterInput)).length 0).apVersion = none :=
  (single_anchor_rescue rescueCounterInput).2 0 (by decide) (by decide)

/-! ## Monitor deduplication (claim C5) -/

/-- Concrete input exhibiting the monitor-deduplication slip: two monitor
lines for id 0 inside one anchor window, the second at a later
timestamp. -/
def monitorBugInput : List LineRec :=
  mkLineRecords ["X 1 09:00:00.000 Monitor0 : monitor(0, 0, 1920, 1080)",
    "X 1 09:00:01.000 Monitor0 : monitor(0, 0, 2560, 1440)",
    "X 1 09:00:02.000 AP Version: [1.0]"]

/-- Claim C5 (code bug).  The source's overwrite branch compares the
stored id `"Monitor0"` with the raw captured id `"0"`
(`foundMonitors.findIndex(m => m.id === monitorId)` at src/App.tsx 224),
which can never succeed, so — contrary to the in-code comment "Update
existing monitor if found within the same window" and to the
specification — a later line for the same monitor id appends a second
entry instead of overwriting: the emitted snapshot carries two `Monitor0`
entries rather than exactly one with the later resolution. -/
theorem monitor_overwrite_code_bug :
    parseSystemInfoForDA monitorBugInput =
      [⟨"09:00:02.000", none, none, none, none,
        some ⟨[⟨"Monitor0", "1920x1080", "monitor(0, 0, 1920, 1080)"⟩,
               ⟨"Monitor0", "2560x1440", "monitor(0, 0, 2560, 1440)"⟩], "09:00:01.000"⟩,
        some ⟨"1.0", "09:00:02.000"⟩, []⟩] ∧
    ((snapshotAt (timedRecords monitorBugInput) [] 1 2).monitors.map
        (fun m => m.value.map MonitorInfo.id)) = some ["Monitor0", "Monitor0"] := by
  refine ⟨by decide, by decide⟩

/-! ## Time Arithmetic versus lexical order (claim C8) -/

/-- Canonical `HH:MM:SS.mmm` timestamp of one day: the shape the
`timeToSeconds` guard regex accepts, with the hour below 24 and the
minute and second fields below 60. -/
def canonTimestamp (s : String) : Bool :=
  match s.data with
  | [h1, h2, c1, m1, m2, c2, s1, s2, p, x1, x2, x3] =>
    h1.isDigit && h2.isDigit && (c1 == ':') && m1.isDigit && m2.isDigit && (c2 == ':') &&
    s1.isDigit && s2.isDigit && (p == '.') && x1.isDigit && x2.isDigit && x3.isDigit &&
    decide (dv h1 * 10 + dv h2 < 24) && decide (dv m1 * 10 + dv m2 < 60) &&
    decide (dv s1 * 10 + dv s2 < 60)
  | _ => false

theorem canonTimestamp_shape {s : String} (h : canonTimestamp s = true) :
    ∃ h1 h2 m1 m2 s1 s2 x1 x2 x3 : Char,
      s.data = [h1, h2, ':', m1, m2, ':', s1, s2, '.', x1, x2, x3] ∧
      h1.isDigit = true ∧ h2.isDigit = true ∧ m1.isDigit = true ∧ m2.isDigit = true ∧
      s1.isDigit = true ∧ s2.isDigit = true ∧ x1.isDigit = true ∧ x2.isDigit = true ∧
      x3.isDigit = true ∧
      dv h1 * 10 + dv h2 < 24 ∧ dv m1 * 10 + dv m2 < 60 ∧ dv s1 * 10 + dv s2 < 60 := by
  unfold canonTimestamp at h
  split at h
  case _ a1 a2 c1 b1 b2 c2 e1 e2 p d1 d2 d3 heq =>
    simp only [Bool.and_eq_true, beq_iff_eq, decide_eq_true_eq] at h
    obtain ⟨⟨⟨⟨⟨⟨⟨⟨⟨⟨⟨⟨⟨⟨hA1, hA2⟩, hC1⟩, hB1⟩, hB2⟩, hC2⟩, hE1⟩, hE2⟩, hP⟩, hD1⟩,
      hD2⟩, hD3⟩, hBd1⟩, hBd2⟩, hBd3⟩ := h
    subst hC1
    subst hC2
    subst hP
    exact ⟨a1, a2, b1, b2, e1, e2, d1, d2, d3, heq, hA1, hA2, hB1, hB2, hE1, hE2,
      hD1, hD2, hD3, hBd1, hBd2, hBd3⟩
  case _ => exact absurd h (by simp)

theorem isDigit_toNat {c : Char} (h : c.isDigit = true) : 48 ≤ c.toNat ∧ c.toNat ≤ 57 := by
  unfold Char.isDigit at h
  simp only [Bool.and_eq_true, decide_eq_true_eq] at h
  exact ⟨h.1, h.2⟩

theorem char_lt_iff (a b : Char) : a < b ↔ a.toNat < b.toNat := ⟨fun h => h, fun h => h⟩

theorem digit_lt_iff {a b : Char} (ha : a.isDigit = true) (hb : b.isDigit = true) :
    a < b ↔ dv a < dv b := by
  rw [char_lt_iff]
  have h1 := isDigit_toNat ha
  have h2 := isDigit_toNat hb
  unfold dv
  omega

theorem digit_eq_iff {a b : Char} (ha : a.isDigit = true) (hb : b.isDigit = true) :
    a = b ↔ dv a = dv b := by
  constructor
  · intro h
    rw [h]
  · intro h
    have h1 := isDigit_toNat ha
    have h2 := isDigit_toNat hb
    have htn : a.toNat = b.toNat := by
      unfold dv at h
      omega
    exact Char.eq_of_val_eq (UInt32.ext htn)

theorem lex_cons_iff {a b : Char} {as bs : List Char} :
    (a :: as) < (b :: bs) ↔ a < b ∨ (a = b ∧ as < bs) := by
  constructor
  · intro h
    cases h with
    | rel h => exact Or.inl h
    | cons h => exact Or.inr ⟨rfl, h⟩
  · intro h
    rcases h with h | ⟨rfl, h⟩
    · exact List.Lex.rel h
    · exact List.Lex.cons h

theorem lex_nil_iff : (([] : List Char) < []) ↔ False :=
  iff_false_intro (fun h => by cases h)

/-- Millisecond value of a canonical-shape timestamp in terms of its
digits. -/
theorem timeToMillis_shape {s : String} {h1 h2 m1 m2 s1 s2 x1 x2 x3 : Char}
    (heq : s.data = [h1, h2, ':', m1, m2, ':', s1, s2, '.', x1, x2, x3])
    (hd : h1.isDigit = true ∧ h2.isDigit = true ∧ m1.isDigit = true ∧ m2.isDigit = true ∧
      s1.isDigit = true ∧ s2.isDigit = true ∧ x1.isDigit = true ∧ x2.isDigit = true ∧
      x3.isDigit = true) :
    timeToMillis s = (dv h1 * 10 + dv h2) * 3600000 + (dv m1 * 10 + dv m2) * 60000 +
      (dv s1 * 10 + dv s2) * 1000 + (dv x1 * 100 + dv x2 * 10 + dv x3) := by
  unfold timeToMillis
  rw [heq]
  simp [hd.1, hd.2.1, hd.2.2.1, hd.2.2.2.1, hd.2.2.2.2.1, hd.2.2.2.2.2.1,
    hd.2.2.2.2.2.2.1, hd.2.2.2.2.2.2.2.1, hd.2.2.2.2.2.2.2.2]

/-- Claim C8 (confirmed).  On canonical `HH:MM:SS.mmm` timestamps the
Time Arithmetic conversion `hours*3600 + minutes*60 + seconds +
millis/1000` orders exactly as lexical string comparison does. -/
theorem timeToSeconds_monotone_lexical (t1 t2 : String)
    (h1 : canonTimestamp t1 = true) (h2 : canonTimestamp t2 = true) :
    (timeToSeconds t1 < timeToSeconds t2 ↔ t1 < t2) := by
  obtain ⟨a1, a2, b1, b2, e1, e2, d1, d2, d3, heq1, hA1, hA2, hB1, hB2, hE1, hE2,
    hD1, hD2, hD3, hBd1, hBd2, hBd3⟩ := canonTimestamp_shape h1
  obtain ⟨a1', a2', b1', b2', e1', e2', d1', d2', d3', heq2, hA1', hA2', hB1', hB2', hE1', hE2',
    hD1', hD2', hD3', hBd1', hBd2', hBd3'⟩ := canonTimestamp_shape h2
  rw [tts_lt_iff]
  rw [timeToMillis_shape heq1 ⟨hA1, hA2, hB1, hB2, hE1, hE2, hD1, hD2, hD3⟩]
  rw [timeToMillis_shape heq2 ⟨hA1', hA2', hB1', hB2', hE1', hE2', hD1', hD2', hD3'⟩]
  rw [String.lt_iff_toList_lt]
  rw [show t1.toList = t1.data from rfl, show t2.toList = t2.data from rfl, heq1, heq2]
  have hsepc : ((':' : Char) < ':') ↔ False := iff_false_intro (by decide)
  have hsepceq : ((':' : Char) = ':') ↔ True := iff_true_intro rfl
  have hsepp : (('.' : Char) < '.') ↔ False := iff_false_intro (by decide)
  have hseppeq : (('.' : Char) = '.') ↔ True := iff_true_intro rfl
  rw [lex_cons_iff]
  simp only [lex_cons_iff, lex_nil_iff, hsepc, hsepceq, hsepp, hseppeq,
    digit_lt_iff hA1 hA1', digit_eq_iff hA1 hA1', digit_lt_iff hA2 hA2', digit_eq_iff hA2 hA2',
    digit_lt_iff hB1 hB1', digit_eq_iff hB1 hB1', digit_lt_iff hB2 hB2', digit_eq_iff hB2 hB2',
    digit_lt_iff hE1 hE1', digit_eq_iff hE1 hE1', digit_lt_iff hE2 hE2', digit_eq_iff hE2 hE2',
    digit_lt_iff hD1 hD1', digit_eq_iff hD1 hD1', digit_lt_iff hD2 hD2', digit_eq_iff hD2 hD2',
    digit_lt_iff hD3 hD3', digit_eq_iff hD3 hD3',
    false_or, true_and, or_false, and_false, false_and]
  have bb1 := isDigit_toNat hA1
  have bb2 := isDigit_toNat hA2
  have bb3 := isDigit_toNat hB1
  have bb4 := isDigit_toNat hB2
  have bb5 := isDigit_toNat hE1
  have bb6 := isDigit_toNat hE2
  have bb7 := isDigit_toNat hD1
  have bb8 := isDigit_toNat hD2
  have bb9 := isDigit_toNat hD3
  have cc1 := isDigit_toNat hA1'
  have cc2 := isDigit_toNat hA2'
  have cc3 := isDigit_toNat hB1'
  have cc4 := isDigit_toNat hB2'
  have cc5 := isDigit_toNat hE1'
  have cc6 := isDigit_toNat hE2'
  have cc7 := isDigit_toNat hD1'
  have cc8 := isDigit_toNat hD2'
  have cc9 := isDigit_toNat hD3'
  unfold dv at *
  omega

/-- Witness for `timeToSeconds_monotone_lexical` at two concrete
canonical timestamps. -/
theorem timeToSeconds_monotone_lexical_witness :
    canonTimestamp "09:59:59.999" = true ∧ canonTimestamp "10:00:00.000" = true ∧
      (timeToSeconds "09:59:59.999" < timeToSeconds "10:00:00.000" ↔
        ("09:59:59.999" : String) < "10:00:00.000") :=
  ⟨by decide, by decide,
    timeToSeconds_monotone_lexical "09:59:59.999" "10:00:00.000" (by decide) (by decide)⟩

end LogAnalyzer
